import Mathlib

/-!
A shallow embedding of the form-builder schema interpretation core of this
repository (`src/types/schema.ts`, `src/components/FormRenderer.tsx`,
`src/App.tsx`): the schema data model, the per-field Zod validator
construction (`buildZodSchema`), the conditional-visibility evaluator
(`isFieldVisible`), default-value seeding (`getDefaultValues`), the submit
pass (`handleSubmit`), and JSON export/import.

Modelling conventions: JavaScript numbers are modelled as rationals; `NaN`
is tracked explicitly where `Number(...)` coercion can produce it.  Code
that can throw (regular-expression compilation with `new RegExp`, and the
submit pass that runs it) is modelled in `Except`; everything that cannot
throw is a plain total function.  JavaScript regular expressions are
modelled by a small pattern language with a compiler that can reject
malformed patterns, mirroring `new RegExp` raising `SyntaxError`.
-/

namespace FormBuilder

instance {ε α : Type} [DecidableEq ε] [DecidableEq α] : DecidableEq (Except ε α) := fun x y =>
  match x, y with
  | .ok a, .ok b =>
    if h : a = b then isTrue (by rw [h])
    else isFalse fun he => h (Except.ok.inj he)
  | .error a, .error b =>
    if h : a = b then isTrue (by rw [h])
    else isFalse fun he => h (Except.error.inj he)
  | .ok _, .error _ => isFalse fun h => Except.noConfusion h
  | .error _, .ok _ => isFalse fun h => Except.noConfusion h

/-- A JavaScript value as it occurs in the form-data map of the renderer:
strings from text inputs, numbers from numeric defaults, booleans from
checkboxes, plus `null` and `undefined`. -/
inductive JSValue where
  | str (s : String)
  | num (q : ℚ)
  | bool (b : Bool)
  | null
  | undefined
deriving DecidableEq, Repr

/-- Result of JavaScript numeric coercion (`Number(x)`): a number or `NaN`. -/
inductive JSNum where
  | nan
  | val (q : ℚ)
deriving DecidableEq, Repr

/-- Multiplication on rationals through `Rat.divInt`, definitionally
evaluable (the library multiplication is sealed against unfolding). -/
def qMul (a b : ℚ) : ℚ :=
  Rat.divInt (a.num * b.num) (a.den * b.den)

/-- Addition on rationals through `Rat.divInt`, definitionally evaluable. -/
def qAdd (a b : ℚ) : ℚ :=
  Rat.divInt (a.num * b.den + b.num * a.den) ((a.den : Int) * b.den)

/-- Division by a power of ten through `Rat.divInt`, definitionally
evaluable. -/
def qDivPow10 (a : ℚ) (e : Nat) : ℚ :=
  Rat.divInt a.num (a.den * 10 ^ e)

/-- The rational of an integer, definitionally evaluable. -/
def qOfInt (i : Int) : ℚ :=
  Rat.divInt i 1

theorem qMul_eq (a b : ℚ) : qMul a b = a * b := by
  unfold qMul
  rw [Rat.divInt_eq_div]
  push_cast
  conv_rhs => rw [← Rat.num_div_den a, ← Rat.num_div_den b]
  rw [div_mul_div_comm]

theorem qAdd_eq (a b : ℚ) : qAdd a b = a + b := by
  unfold qAdd
  rw [Rat.divInt_eq_div]
  push_cast
  conv_rhs => rw [← Rat.num_div_den a, ← Rat.num_div_den b]
  rw [div_add_div _ _ (by positivity) (by positivity)]
  ring_nf

theorem qDivPow10_eq (a : ℚ) (e : Nat) : qDivPow10 a e = a / 10 ^ e := by
  unfold qDivPow10
  rw [Rat.divInt_eq_div]
  push_cast
  conv_rhs => rw [← Rat.num_div_den a]
  rw [div_div]

theorem qOfInt_eq (i : Int) : qOfInt i = (i : ℚ) := by
  unfold qOfInt
  rw [Rat.divInt_one]

/-- JavaScript whitespace recognized when `Number` coerces a string. -/
def isWsChar (c : Char) : Bool :=
  c = ' ' || c = '\t' || c = '\n' || c = '\r'

/-- The numeric value of a decimal digit character, `none` otherwise. -/
def digitVal (c : Char) : Option Nat :=
  if '0' ≤ c ∧ c ≤ '9' then some (c.toNat - '0'.toNat) else none

/-- Splits a maximal leading run of decimal digits off a character list. -/
def takeDigits : List Char → List Nat × List Char
  | [] => ([], [])
  | c :: cs =>
    match digitVal c with
    | some d =>
      let p := takeDigits cs
      (d :: p.1, p.2)
    | none => ([], c :: cs)

/-- Big-endian Horner evaluation of a digit list. -/
def natOfDigits (ds : List Nat) : Nat :=
  ds.foldl (fun a d => a * 10 + d) 0

/-- Parses an optionally signed decimal numeral (integer part, optional
fraction), the whole input must be consumed.  Used to model `Number(s)` on a
trimmed non-empty string. -/
def parseDecCore (cs : List Char) : Option ℚ :=
  let sp : Bool × List Char :=
    match cs with
    | '-' :: t => (true, t)
    | '+' :: t => (false, t)
    | t => (false, t)
  let ip := takeDigits sp.2
  let signed : ℚ → ℚ := fun q => if sp.1 then -q else q
  match ip.2 with
  | [] => if ip.1 = [] then none else some (signed (qOfInt (natOfDigits ip.1)))
  | '.' :: cs3 =>
    let fp := takeDigits cs3
    if fp.2 = [] ∧ ¬(ip.1 = [] ∧ fp.1 = []) then
      some (signed (qAdd (qOfInt (natOfDigits ip.1))
        (qDivPow10 (qOfInt (natOfDigits fp.1)) fp.1.length)))
    else none
  | _ => none

/-- JavaScript `Number(s)` on a string: whitespace is trimmed, the empty
string coerces to `0`, a decimal numeral to its value, anything else to
`NaN`.  (Exotic numeral forms such as hex or exponents are outside the
modelled fragment.) -/
def jsStrToNum (s : String) : JSNum :=
  let cs := ((s.data.dropWhile isWsChar).reverse.dropWhile isWsChar).reverse
  match cs with
  | [] => .val 0
  | _ =>
    match parseDecCore cs with
    | some q => .val q
    | none => .nan

/-- JavaScript `Number(v)` coercion of a value. -/
def jsToNumber : JSValue → JSNum
  | .str s => jsStrToNum s
  | .num q => .val q
  | .bool b => .val (if b then 1 else 0)
  | .null => .val 0
  | .undefined => .nan

/-- JavaScript `>` between coerced numbers: any comparison with `NaN` is
false. -/
def jsNumGt : JSNum → JSNum → Bool
  | .val a, .val b => a > b
  | _, _ => false

/-- JavaScript `<` between coerced numbers: any comparison with `NaN` is
false. -/
def jsNumLt : JSNum → JSNum → Bool
  | .val a, .val b => a < b
  | _, _ => false

/-- Decimal digit to character. -/
def digitChar (d : Nat) : Char :=
  match d with
  | 0 => '0' | 1 => '1' | 2 => '2' | 3 => '3' | 4 => '4'
  | 5 => '5' | 6 => '6' | 7 => '7' | 8 => '8' | _ => '9'

/-- Little-endian decimal digits by repeated division, with explicit fuel so
that the definition evaluates by reduction. -/
def natDigitsRevAux : Nat → Nat → List Nat
  | 0, _ => []
  | f + 1, n => if n = 0 then [] else n % 10 :: natDigitsRevAux f (n / 10)

/-- Little-endian decimal digits of a natural number (empty for 0). -/
def natDigitsLE (n : Nat) : List Nat :=
  natDigitsRevAux n n

theorem natDigitsRevAux_eq (f : Nat) :
    ∀ n : Nat, n ≤ f → natDigitsRevAux f n = Nat.digits 10 n := by
  induction f with
  | zero =>
    intro n h
    interval_cases n
    simp [natDigitsRevAux]
  | succ f ih =>
    intro n h
    by_cases h0 : n = 0
    · simp [natDigitsRevAux, h0]
    · rw [natDigitsRevAux, if_neg h0,
        Nat.digits_def' (by norm_num : 1 < 10) (Nat.pos_of_ne_zero h0),
        ih (n / 10) (by omega)]

theorem natDigitsLE_eq (n : Nat) : natDigitsLE n = Nat.digits 10 n := by
  exact natDigitsRevAux_eq n n le_rfl

/-- Big-endian decimal digit characters of a natural number (empty for 0). -/
def natDigitsChars (n : Nat) : List Char :=
  ((natDigitsLE n).reverse).map digitChar

/-- Decimal representation of a natural number. -/
def natRepr (n : Nat) : List Char :=
  if n = 0 then ['0'] else natDigitsChars n

/-- Smallest exponent `e` with `d` dividing `10 ^ e`, when one exists; the
search range suffices because such an `e` is at most `d`. -/
def decExp (d : Nat) : Option Nat :=
  (List.range (d + 1)).find? fun e => 10 ^ e % d = 0

/-- Left-pads the decimal representation of `m` with zeros to width `e`. -/
def padZeros (e : Nat) (m : Nat) : List Char :=
  List.replicate (e - (natRepr m).length) '0' ++ natRepr m

/-- Decimal representation of a nonnegative rational with a
finite decimal expansion (its digits after multiplying out the found power
of ten); falls back to the integer part for rationals outside that
fragment, which never arise from JavaScript doubles. -/
def ratDecCharsNonneg (q : ℚ) : List Char :=
  match decExp q.den with
  | none => natRepr q.num.toNat
  | some e =>
    let n := (qMul q (qOfInt (10 ^ e))).num.toNat
    if e = 0 then natRepr n
    else natRepr (n / 10 ^ e) ++ '.' :: padZeros e (n % 10 ^ e)

/-- Decimal representation of a rational, modelling how JavaScript prints a
number (`String(x)`, `JSON.stringify`). -/
def ratDecChars (q : ℚ) : List Char :=
  if q < 0 then '-' :: ratDecCharsNonneg (-q) else ratDecCharsNonneg q

/-- JavaScript `String(x)` for a number. -/
def jsNumRepr (q : ℚ) : String :=
  ⟨ratDecChars q⟩

/-- JavaScript `String(v)` coercion of a value. -/
def jsToString : JSValue → String
  | .str s => s
  | .num q => jsNumRepr q
  | .bool b => if b then "true" else "false"
  | .null => "null"
  | .undefined => "undefined"

/-- Boolean prefix test on character lists. -/
def isPrefixL : List Char → List Char → Bool
  | [], _ => true
  | _ :: _, [] => false
  | a :: as, b :: bs => a = b && isPrefixL as bs

/-- Boolean infix (substring) test on character lists. -/
def isInfixL (needle : List Char) : List Char → Bool
  | [] => isPrefixL needle []
  | c :: cs => isPrefixL needle (c :: cs) || isInfixL needle cs

/-- JavaScript `hay.includes(needle)`. -/
def jsContains (hay needle : String) : Bool :=
  isInfixL needle.data hay.data

/-- JavaScript falsiness: `undefined`, `null`, `false`, `0` and the empty
string are falsy. -/
def jsFalsy : JSValue → Bool
  | .str s => s = ""
  | .num q => q = 0
  | .bool b => !b
  | .null => true
  | .undefined => true

example : jsStrToNum "" = .val 0 := by decide
example : jsStrToNum "15" = .val 15 := by decide
example : jsStrToNum "  21 " = .val 21 := by decide
example : jsStrToNum "2024-01-01" = .nan := by decide
example : jsStrToNum "1.5" = .val (Rat.divInt 3 2) := by decide
example : jsStrToNum "abc" = .nan := by decide
example : jsNumRepr 0 = "0" := by decide
example : jsNumRepr (Rat.divInt 3 2) = "1.5" := by decide
example : jsNumRepr (-18) = "-18" := by decide
example : jsContains "Hello World" "lo W" = true := by decide
example : jsContains "" "0" = false := by decide

/-! ### Regular expressions

A model of the JavaScript regular expressions the renderer builds with
`new RegExp(rule.value)` and the date literal `/^\d\x7b4\x7d-\d\x7b2\x7d-\d\x7b2\x7d$/`:
a pattern AST, Brzozowski-derivative matching, and a pattern compiler that
rejects malformed patterns the way `new RegExp` raises `SyntaxError`. -/

/-- One item of a character class `[...]`. -/
inductive ClsItem where
  | single (c : Char)
  | range (lo hi : Char)
  | digitCls
deriving DecidableEq, Repr

/-- Regular-expression AST. -/
inductive Regex where
  | fail
  | eps
  | char (c : Char)
  | anyc
  | cls (neg : Bool) (items : List ClsItem)
  | cat (a b : Regex)
  | alt (a b : Regex)
  | star (a : Regex)
deriving DecidableEq, Repr

/-- Does the expression accept the empty string? -/
def Regex.nullable : Regex → Bool
  | .fail => false
  | .eps => true
  | .char _ => false
  | .anyc => false
  | .cls _ _ => false
  | .cat a b => a.nullable && b.nullable
  | .alt a b => a.nullable || b.nullable
  | .star _ => true

/-- Does a class item match a character? -/
def clsItemMatch (c : Char) : ClsItem → Bool
  | .single a => a = c
  | .range lo hi => lo ≤ c && c ≤ hi
  | .digitCls => c.isDigit

/-- Does a character class match a character? -/
def clsMatch (neg : Bool) (items : List ClsItem) (c : Char) : Bool :=
  let m := items.any (clsItemMatch c)
  if neg then !m else m

/-- Brzozowski derivative with respect to one character. -/
def Regex.deriv (c : Char) : Regex → Regex
  | .fail => .fail
  | .eps => .fail
  | .char a => if a = c then .eps else .fail
  | .anyc => if c = '\n' then .fail else .eps
  | .cls neg items => if clsMatch neg items c then .eps else .fail
  | .cat a b =>
    if a.nullable then .alt (.cat (a.deriv c) b) (b.deriv c)
    else .cat (a.deriv c) b
  | .alt a b => .alt (a.deriv c) (b.deriv c)
  | .star a => .cat (a.deriv c) (.star a)

/-- Whole-list matching by iterated derivatives. -/
def Regex.matchFull (r : Regex) (cs : List Char) : Bool :=
  (cs.foldl (fun r c => r.deriv c) r).nullable

/-- A compiled JavaScript regular expression: optional `^` and `$` anchors
around a body. -/
structure JSRegex where
  anchorStart : Bool
  anchorEnd : Bool
  body : Regex
deriving DecidableEq, Repr

/-- All prefixes of a character list. -/
def prefixesOf (cs : List Char) : List (List Char) :=
  (List.range (cs.length + 1)).map (fun n => cs.take n)

/-- All suffixes of a character list. -/
def suffixesOf (cs : List Char) : List (List Char) :=
  (List.range (cs.length + 1)).map (fun n => cs.drop n)

/-- JavaScript `regex.test(s)`: an unanchored pattern may match any
substring. -/
def JSRegex.test (r : JSRegex) (s : String) : Bool :=
  let cs := s.data
  match r.anchorStart, r.anchorEnd with
  | true, true => r.body.matchFull cs
  | true, false => (prefixesOf cs).any r.body.matchFull
  | false, true => (suffixesOf cs).any r.body.matchFull
  | false, false => (suffixesOf cs).any fun t => (prefixesOf t).any r.body.matchFull

/-- The expression for a backslash escape outside a class. -/
def escAtom (c : Char) : Regex :=
  if c = 'd' then .cls false [.digitCls]
  else if c = 'D' then .cls true [.digitCls]
  else if c = 'w' then .cls false [.range 'a' 'z', .range 'A' 'Z', .digitCls, .single '_']
  else if c = 's' then .cls false [.single ' ', .single '\t', .single '\n', .single '\r']
  else if c = 'n' then .char '\n'
  else if c = 't' then .char '\t'
  else if c = 'r' then .char '\r'
  else .char c

/-- The character for a backslash escape inside a class. -/
def escChar (c : Char) : Char :=
  if c = 'n' then '\n' else if c = 't' then '\t' else if c = 'r' then '\r' else c

/-- Parses the items of a character class up to the closing bracket; fails
at end of input, mirroring `SyntaxError` on an unterminated class. -/
def clsItems : List Char → Option (List ClsItem × List Char)
  | [] => none
  | ']' :: r => some ([], r)
  | '\\' :: [] => none
  | '\\' :: c :: rest =>
    (clsItems rest).map fun p =>
      ((if c = 'd' then ClsItem.digitCls else ClsItem.single (escChar c)) :: p.1, p.2)
  | a :: '-' :: b :: rest =>
    if b = ']' then some ([.single a, .single '-'], rest)
    else (clsItems rest).map fun p => (ClsItem.range a b :: p.1, p.2)
  | a :: rest =>
    (clsItems rest).map fun p => (ClsItem.single a :: p.1, p.2)

/-- Concatenation of `k` copies of an expression (for `\x7bk\x7d`). -/
def repeatRe (a : Regex) : Nat → Regex
  | 0 => .eps
  | k + 1 => .cat a (repeatRe a k)

/-- Up to `k` optional copies of an expression (for `\x7bn,m\x7d`). -/
def optRepeatRe (a : Regex) : Nat → Regex
  | 0 => .eps
  | k + 1 => .alt .eps (.cat a (optRepeatRe a k))

/-- Reads a decimal count inside a counted quantifier. -/
def parseNatChars (cs : List Char) : Option (Nat × List Char) :=
  let p := takeDigits cs
  if p.1 = [] then none else some (natOfDigits p.1, p.2)

/-- Applies a postfix quantifier, when present, to a parsed atom. -/
def reQuant (a : Regex) : List Char → Option (Regex × List Char)
  | '*' :: r => some (.star a, r)
  | '+' :: r => some (.cat a (.star a), r)
  | '?' :: r => some (.alt .eps a, r)
  | '\x7b' :: r =>
    match parseNatChars r with
    | none => none
    | some (k, r1) =>
      match r1 with
      | '\x7d' :: r2 => some (repeatRe a k, r2)
      | ',' :: '\x7d' :: r2 => some (.cat (repeatRe a k) (.star a), r2)
      | ',' :: r2 =>
        match parseNatChars r2 with
        | none => none
        | some (m, r3) =>
          match r3 with
          | '\x7d' :: r4 => some (.cat (repeatRe a k) (optRepeatRe a (m - k)), r4)
          | _ => none
      | _ => none
  | r => some (a, r)


/-! Mutually recursive pattern parser (alternation / sequence / atom),
driven by explicit fuel; a malformed pattern yields `none`. -/

mutual

def reAlt : Nat → List Char → Option (Regex × List Char)
  | 0, _ => none
  | n + 1, cs =>
    match reCat n cs with
    | none => none
    | some (a, r1) =>
      match r1 with
      | '|' :: r2 =>
        match reAlt n r2 with
        | none => none
        | some (b, r3) => some (.alt a b, r3)
      | _ => some (a, r1)

def reCat : Nat → List Char → Option (Regex × List Char)
  | 0, _ => none
  | n + 1, cs =>
    match cs with
    | [] => some (.eps, [])
    | ')' :: _ => some (.eps, cs)
    | '|' :: _ => some (.eps, cs)
    | _ =>
      match reAtomQ n cs with
      | none => none
      | some (a, r1) =>
        match reCat n r1 with
        | none => none
        | some (b, r2) => some (.cat a b, r2)

def reAtomQ : Nat → List Char → Option (Regex × List Char)
  | 0, _ => none
  | n + 1, cs =>
    match reAtom n cs with
    | none => none
    | some (a, r1) => reQuant a r1

def reAtom : Nat → List Char → Option (Regex × List Char)
  | 0, _ => none
  | n + 1, cs =>
    match cs with
    | [] => none
    | '(' :: r =>
      let r := match r with
        | '?' :: ':' :: t => t
        | _ => r
      match reAlt n r with
      | none => none
      | some (a, r1) =>
        match r1 with
        | ')' :: r2 => some (a, r2)
        | _ => none
    | '[' :: r =>
      let p : Bool × List Char := match r with
        | '^' :: t => (true, t)
        | t => (false, t)
      match clsItems p.2 with
      | none => none
      | some (items, r2) => some (.cls p.1 items, r2)
    | '\\' :: [] => none
    | '\\' :: c :: r => some (escAtom c, r)
    | '.' :: r => some (.anyc, r)
    | '^' :: _ => none
    | '$' :: _ => none
    | '*' :: _ => none
    | '+' :: _ => none
    | '?' :: _ => none
    | ')' :: _ => none
    | '|' :: _ => none
    | '\x7b' :: _ => none
    | c :: r => some (.char c, r)

end

/-- Splits leading `^` and trailing `$` anchors off a pattern (a trailing
`$` protected by a backslash is kept). -/
def stripAnchors (cs : List Char) : Bool × Bool × List Char :=
  let p : Bool × List Char := match cs with
    | '^' :: t => (true, t)
    | t => (false, t)
  match p.2.reverse with
  | '$' :: rt =>
    match rt with
    | '\\' :: _ => (p.1, false, p.2)
    | _ => (p.1, true, rt.reverse)
  | _ => (p.1, false, p.2)

/-- Model of `new RegExp(pattern)`: `none` mirrors `SyntaxError` on a
malformed pattern. -/
def compileRegex (pattern : String) : Option JSRegex :=
  let a := stripAnchors pattern.data
  match reAlt (a.2.2.length * 2 + 2) a.2.2 with
  | some (r, []) => some ⟨a.1, a.2.1, r⟩
  | _ => none

/-- The date-format pattern literal of the renderer. -/
def datePatternStr : String := "^\\d\x7b4\x7d-\\d\x7b2\x7d-\\d\x7b2\x7d$"

/-- The compiled date-format expression (the source holds it as a regex
literal, which always compiles). -/
def dateRegex : JSRegex :=
  (compileRegex datePatternStr).getD ⟨true, true, .fail⟩

example : (compileRegex datePatternStr).isSome = true := by decide
example : dateRegex.test "2024-01-01" = true := by decide
example : dateRegex.test "2024-1-1" = false := by decide
example : dateRegex.test "" = false := by decide
example : compileRegex "(" = none := by decide
example : compileRegex "[A-Za-z ]+" ≠ none := by decide
example : ((compileRegex "^[A-Za-z ]+$").getD ⟨true, true, .fail⟩).test "Hello World" = true := by decide
example : ((compileRegex "^[A-Za-z ]+$").getD ⟨true, true, .fail⟩).test "Hello123" = false := by decide
example : ((compileRegex "ab").getD ⟨true, true, .fail⟩).test "xxabyy" = true := by decide

/-! ### Schema data model (`src/types/schema.ts`)

The seven field kinds of the source are a discriminated union sharing one
envelope; the embedding uses a single record with a `type` discriminant,
optional properties as `Option`, and the per-kind payload typing recorded
where it matters (`defaultValue` and conditional comparands are the
`string | number | boolean` primitives). -/

/-- A `string | number | boolean` JavaScript primitive. -/
inductive JSPrim where
  | str (s : String)
  | num (q : ℚ)
  | bool (b : Bool)
deriving DecidableEq, Repr

/-- The value a primitive takes inside the form-data map. -/
def JSPrim.toJS : JSPrim → JSValue
  | .str s => .str s
  | .num q => .num q
  | .bool b => .bool b

/-- The closed set of field types. -/
inductive FieldType where
  | text
  | textarea
  | number
  | select
  | radio
  | checkbox
  | date
deriving DecidableEq, Repr

/-- The rule kinds of `ValidationRule`. -/
inductive RuleType where
  | required
  | min
  | max
  | regex
  | custom
deriving DecidableEq, Repr

/-- The `string | number` payload of `ValidationRule.value`. -/
inductive RuleVal where
  | str (s : String)
  | num (q : ℚ)
deriving DecidableEq, Repr

/-- A declarative validation rule. -/
structure ValidationRule where
  type : RuleType
  value : Option RuleVal
  message : Option String
deriving DecidableEq, Repr

/-- The comparison operators of `ConditionalRule`. -/
inductive CondOp where
  | equals
  | notEquals
  | contains
  | greaterThan
  | lessThan
deriving DecidableEq, Repr

/-- A conditional-visibility rule. -/
structure ConditionalRule where
  field : String
  operator : CondOp
  value : JSPrim
deriving DecidableEq, Repr

/-- An option of a select or radio field. -/
structure FieldOption where
  label : String
  value : String
deriving DecidableEq, Repr

/-- One form-field definition (the shared envelope of the source union;
TypeScript-optional properties are `Option`). -/
structure FormField where
  id : String
  name : String
  label : String
  type : FieldType
  helpText : Option String := none
  placeholder : Option String := none
  required : Option Bool := none
  validation : Option (List ValidationRule) := none
  conditional : Option ConditionalRule := none
  defaultValue : Option JSPrim := none
  options : Option (List FieldOption) := none
deriving DecidableEq, Repr

/-- A complete form schema. -/
structure FormSchema where
  title : String
  description : Option String := none
  fields : List FormField
deriving DecidableEq, Repr

/-! ### The compiled Zod validator

`buildZodSchema` of `FormRenderer.tsx` builds, per field, a Zod schema
value: a base (coerced number, boolean, or string) carrying a list of
checks, wrapped by a required-refinement or `.optional()`.  The embedding
separates the built schema (data) from its parse semantics (`runZod`),
which follows Zod: an invalid-type error aborts, failed checks accumulate
issues but stay dirty, and a `.refine` predicate runs on the coerced
output whenever the inner parse did not abort, appending its issue last. -/

/-- A numeric check attached to `z.coerce.number()`. -/
inductive NumCheck where
  | minC (v : ℚ) (msg : String)
  | maxC (v : ℚ) (msg : String)
deriving DecidableEq, Repr

/-- A string check attached to `z.string()`. -/
inductive StrCheck where
  | regexC (r : JSRegex) (msg : String)
  | minLen (v : ℚ) (msg : String)
  | maxLen (v : ℚ) (msg : String)
deriving DecidableEq, Repr

/-- The base schema selected by `field.type`. -/
inductive ZodBase where
  | coerceNumber (typeMsg : String) (checks : List NumCheck)
  | boolean
  | string (checks : List StrCheck)
deriving DecidableEq, Repr

/-- A built per-field schema: the base plus the required/optional wrapper. -/
inductive ZodSchema where
  | plain (b : ZodBase)
  | refineNonEmpty (b : ZodBase) (msg : String)
  | refineTrue (b : ZodBase) (msg : String)
  | optional (b : ZodBase)
deriving DecidableEq, Repr

/-- Outcome of parsing the base: aborted on an invalid type, or done with
accumulated issues and the (coerced) output value. -/
inductive BaseOut where
  | aborted (msg : String)
  | done (issues : List String) (out : JSValue)
deriving DecidableEq, Repr

/-- Runs the numeric checks, accumulating issues in order. -/
def runNumChecks (q : ℚ) (cs : List NumCheck) : List String :=
  cs.foldl (fun acc c =>
    acc ++ (match c with
      | .minC v m => if q < v then [m] else []
      | .maxC v m => if q > v then [m] else [])) []

/-- Runs the string checks, accumulating issues in order. -/
def runStrChecks (s : String) (cs : List StrCheck) : List String :=
  cs.foldl (fun acc c =>
    acc ++ (match c with
      | .regexC r m => if r.test s then [] else [m]
      | .minLen v m => if qOfInt s.length < v then [m] else []
      | .maxLen v m => if qOfInt s.length > v then [m] else [])) []

/-- The printed name Zod uses for a received value in a type error. -/
def zodTypeName : JSValue → String
  | .str _ => "string"
  | .num _ => "number"
  | .bool _ => "boolean"
  | .null => "null"
  | .undefined => "undefined"

/-- The default Zod invalid-type message (undefined input reads
`Required`). -/
def zodInvalidTypeMsg (expected : String) (v : JSValue) : String :=
  if v = .undefined then "Required"
  else s!"Expected {expected}, received {zodTypeName v}"

/-- Parses a value against the base schema. -/
def runBase : ZodBase → JSValue → BaseOut
  | .coerceNumber typeMsg checks, v =>
    match jsToNumber v with
    | .nan => .aborted typeMsg
    | .val q => .done (runNumChecks q checks) (.num q)
  | .boolean, v =>
    match v with
    | .bool b => .done [] (.bool b)
    | _ => .aborted (zodInvalidTypeMsg "boolean" v)
  | .string checks, v =>
    match v with
    | .str s => .done (runStrChecks s checks) (.str s)
    | _ => .aborted (zodInvalidTypeMsg "string" v)

/-- The predicate of the required refinement for non-checkbox fields:
`val !== "" && val !== null && val !== undefined`, applied to the coerced
output. -/
def nonEmptyPred : JSValue → Bool
  | .str "" => false
  | .null => false
  | .undefined => false
  | _ => true

/-- Parses a value against the built schema, returning the issue list in
Zod order (base issues first, refinement issue last; `.optional()` accepts
`undefined` outright). -/
def runZod : ZodSchema → JSValue → List String
  | .plain b, v =>
    match runBase b v with
    | .aborted m => [m]
    | .done is _ => is
  | .refineNonEmpty b msg, v =>
    match runBase b v with
    | .aborted m => [m]
    | .done is out => is ++ (if nonEmptyPred out then [] else [msg])
  | .refineTrue b msg, v =>
    match runBase b v with
    | .aborted m => [m]
    | .done is out => is ++ (if out = .bool true then [] else [msg])
  | .optional b, v =>
    if v = .undefined then []
    else
      match runBase b v with
      | .aborted m => [m]
      | .done is _ => is

/-! ### `buildZodSchema` (`FormRenderer.tsx` lines 30 to 107) -/

/-- Schema construction can fail only when `new RegExp(rule.value)` raises
on a malformed pattern. -/
inductive BuildError where
  | badPattern (pattern : String)
deriving DecidableEq, Repr

/-- JavaScript `rule.message || default`: an absent or empty (falsy)
message selects the default. -/
def msgOr (m : Option String) (d : String) : String :=
  match m with
  | some s => if s = "" then d else s
  | none => d

/-- The numeric checks collected from the rule loop of the `number`
branch: a `min`/`max` rule applies only when its value is a number. -/
def numChecksOf (rules : List ValidationRule) : List NumCheck :=
  rules.foldl (fun acc rule =>
    acc ++ (match rule.type, rule.value with
      | .min, some (.num q) => [NumCheck.minC q (msgOr rule.message s!"Minimum value is {jsNumRepr q}")]
      | .max, some (.num q) => [NumCheck.maxC q (msgOr rule.message s!"Maximum value is {jsNumRepr q}")]
      | _, _ => [])) []

/-- The string checks contributed by one rule of the default branch; a
regex rule with a malformed pattern throws out of the loop. -/
def strCheckOfRule (rule : ValidationRule) : Except BuildError (List StrCheck) :=
  match rule.type, rule.value with
  | .regex, some (.str p) =>
    match compileRegex p with
    | some r => .ok [StrCheck.regexC r (msgOr rule.message "Invalid format")]
    | none => .error (.badPattern p)
  | .min, some (.num q) => .ok [StrCheck.minLen q (msgOr rule.message s!"Minimum length is {jsNumRepr q}")]
  | .max, some (.num q) => .ok [StrCheck.maxLen q (msgOr rule.message s!"Maximum length is {jsNumRepr q}")]
  | _, _ => .ok []

/-- The string checks collected from the rule loop of the default branch. -/
def strChecksOf (rules : List ValidationRule) : Except BuildError (List StrCheck) :=
  rules.foldlM (fun acc rule => (strCheckOfRule rule).map (acc ++ ·)) []

/-- The required/optional wrapper applied last by `buildZodSchema`. -/
def requiredWrap (field : FormField) (b : ZodBase) : ZodSchema :=
  if field.required.getD false then
    if field.type = .checkbox then .refineTrue b s!"{field.label} is required"
    else .refineNonEmpty b s!"{field.label} is required"
  else .optional b

/-- The per-field schema builder of the renderer.  `number` applies
numeric min/max rules on a coerced number; `checkbox` is a plain boolean;
`date` is a string against the fixed date pattern (its rule loop is
unreachable); every other type is a string with regex/min/max rules. -/
def buildZodSchema (field : FormField) : Except BuildError ZodSchema :=
  match field.type with
  | .number =>
    .ok (requiredWrap field
      (.coerceNumber s!"{field.label} must be a number" (numChecksOf (field.validation.getD []))))
  | .checkbox => .ok (requiredWrap field .boolean)
  | .date => .ok (requiredWrap field (.string [.regexC dateRegex "Invalid date format"]))
  | _ =>
    (strChecksOf (field.validation.getD [])).map fun cs =>
      requiredWrap field (.string cs)

/-- The single error message the renderer keeps for a field: the submit
handler writes each issue into `newErrors[field.name]` in order, so the
last issue wins; no issue means the field is valid. -/
inductive ValidationResult where
  | valid
  | invalid (msg : String)
deriving DecidableEq, Repr

/-- Reduces an issue list to the displayed result (last issue wins). -/
def lastIssue (issues : List String) : ValidationResult :=
  match issues.getLast? with
  | some m => .invalid m
  | none => .valid

/-- Compiles a field and checks one value, producing the displayed
result. -/
def checkField (field : FormField) (v : JSValue) : Except BuildError ValidationResult :=
  (buildZodSchema field).map fun zs => lastIssue (runZod zs v)

/-! ### Form data, visibility, defaults, and the submit pass
(`FormRenderer.tsx` lines 110 to 215) -/

/-- The form-data map: a JavaScript object from field names to values,
modelled as an association list in insertion order. -/
abbrev ValueMap := List (String × JSValue)

/-- JavaScript property read `obj[k]`: `undefined` when the key is
absent. -/
def objGet (m : ValueMap) (k : String) : JSValue :=
  match m.lookup k with
  | some v => v
  | none => .undefined

/-- JavaScript property write `obj[k] = v`: an existing key keeps its
position, a new key is appended. -/
def assocSet {α : Type} (m : List (String × α)) (k : String) (v : α) : List (String × α) :=
  if (m.lookup k).isSome then
    m.map fun p => if p.1 = k then (k, v) else p
  else m ++ [(k, v)]

/-- JavaScript object spread `{...a, ...b}`: keys of `a` keep their
position (with the value from `b` on a clash), new keys of `b` follow in
order. -/
def objSpread (a b : ValueMap) : ValueMap :=
  (a.map fun p => (p.1,
    match b.lookup p.1 with
    | some v => v
    | none => p.2)) ++ b.filter fun p => (a.lookup p.1).isNone

/-- `getDefaultValues` of the renderer: seeds an entry per field whose
`defaultValue` is defined, visiting fields in order. -/
def getDefaultValues (fields : List FormField) : ValueMap :=
  fields.foldl (fun values f =>
    match f.defaultValue with
    | some v => assocSet values f.name v.toJS
    | none => values) []

/-- The schema-change effect of the renderer
(`setFormData(prev => ({...prev, ...getDefaultValues(schema.fields)}))`). -/
def applySchemaChange (prevData : ValueMap) (fields : List FormField) : ValueMap :=
  objSpread prevData (getDefaultValues fields)

/-- `isFieldVisible` of the renderer, evaluated against a form-data map. -/
def isFieldVisible (formData : ValueMap) (field : FormField) : Bool :=
  match field.conditional with
  | none => true
  | some c =>
    let targetValue := objGet formData c.field
    let v := c.value.toJS
    match c.operator with
    | .equals => targetValue = v
    | .notEquals => ¬(targetValue = v)
    | .contains =>
      jsContains (jsToString (if jsFalsy targetValue then .str "" else targetValue)) (jsToString v)
    | .greaterThan => jsNumGt (jsToNumber targetValue) (jsToNumber v)
    | .lessThan => jsNumLt (jsToNumber targetValue) (jsToNumber v)

/-- The value a rendered input displays:
`formData[field.name] ?? ""` (nullish coalescing). -/
def renderedValue (formData : ValueMap) (field : FormField) : JSValue :=
  match objGet formData field.name with
  | .undefined => .str ""
  | .null => .str ""
  | v => v

/-- The per-instance renderer state touched by the submit pass. -/
structure RenderState where
  formData : ValueMap
  errors : List (String × String)
  isSubmitting : Bool
  submitResult : Option (Bool × String)
deriving DecidableEq, Repr

/-- The shape of the composite validator: one built schema per currently
visible field, keyed by field name (`schemaShape[field.name] = ...`).
This construction runs before the `try` block, so a thrown
`SyntaxError` escapes the submit handler. -/
def buildShape (schema : FormSchema) (formData : ValueMap) : Except BuildError (List (String × ZodSchema)) :=
  schema.fields.foldlM (fun shape f =>
    if isFieldVisible formData f then
      (buildZodSchema f).map fun zs => assocSet shape f.name zs
    else .ok shape) []

/-- The error record built from a failed `parse`: issues are visited in
shape order and written into `newErrors[name]`, the last issue per field
winning. -/
def fieldIssues (shape : List (String × ZodSchema)) (formData : ValueMap) : List (String × String) :=
  shape.foldl (fun acc p =>
    (runZod p.2 (objGet formData p.1)).foldl (fun acc m => assocSet acc p.1 m) acc) []

/-- The synchronous part of `handleSubmit`, up to and including the
decision to invoke the external submit collaborator: clears the result
banner, builds the shape over visible fields (which can throw), validates
the current form data, and either records errors (with `isSubmitting`
reset by `finally`) or enters the submitting state and fires the request.
The returned flag reports whether the collaborator was invoked.  The
handler reads no guard on `isSubmitting`. -/
def handleSubmitSync (schema : FormSchema) (st : RenderState) : Except BuildError (RenderState × Bool) := do
  let st0 := { st with submitResult := none }
  let shape ← buildShape schema st0.formData
  let errs := fieldIssues shape st0.formData
  if errs = [] then
    .ok ({ st0 with errors := [], isSubmitting := true }, true)
  else
    .ok ({ st0 with errors := errs, isSubmitting := false }, false)

/-- The only protection against a second submit while one is in flight:
the submit button carries `disabled={isSubmitting}`. -/
def submitButtonDisabled (st : RenderState) : Bool :=
  st.isSubmitting

section SanityChecks

/-- Scenario field: `{name: "age", type: "number", required: true,
validation: [{type:"min", value:18, message:"Must be 18+"}]}`. -/
def ageField : FormField :=
  { id := "1", name := "age", label := "age", type := .number,
    required := some true,
    validation := some [{ type := .min, value := some (.num 18), message := some "Must be 18+" }] }

def ageFieldNoRules : FormField :=
  { id := "1", name := "age", label := "age", type := .number, required := some true }

example : checkField ageField (.str "15") = .ok (.invalid "Must be 18+") := by decide
example : checkField ageField (.str "21") = .ok .valid := by decide
example : checkField ageField (.str "") = .ok (.invalid "Must be 18+") := by decide
example : checkField ageFieldNoRules (.str "") = .ok .valid := by decide
example : checkField ageFieldNoRules .undefined = .ok (.invalid "age must be a number") := by decide

def fullNameField : FormField :=
  { id := "2", name := "fullName", label := "Full Name", type := .text,
    required := some true,
    validation := some [{ type := .min, value := some (.num 3), message := none }] }

example : checkField fullNameField (.str "") = .ok (.invalid "Full Name is required") := by decide
example : checkField fullNameField .null = .ok (.invalid "Expected string, received null") := by decide
example : checkField fullNameField .undefined = .ok (.invalid "Required") := by decide
example : checkField fullNameField (.str "ab") = .ok (.invalid "Minimum length is 3") := by decide

def bioField : FormField :=
  { id := "3", name := "bio", label := "Bio", type := .textarea,
    validation := some [{ type := .min, value := some (.num 3), message := none }] }

example : checkField bioField (.str "") = .ok (.invalid "Minimum length is 3") := by decide
example : checkField bioField .undefined = .ok .valid := by decide

def dateMinField : FormField :=
  { id := "4", name := "d", label := "D", type := .date,
    validation := some [{ type := .min, value := some (.num 20), message := none }] }

example : checkField dateMinField (.str "2024-01-01") = .ok .valid := by decide

def selectMinField : FormField :=
  { id := "5", name := "s", label := "S", type := .select,
    validation := some [{ type := .min, value := some (.num 2), message := none }],
    options := some [{ label := "A", value := "a" }] }

example : checkField selectMinField (.str "a") = .ok (.invalid "Minimum length is 2") := by decide

def badPatternField : FormField :=
  { id := "6", name := "b", label := "B", type := .text,
    validation := some [{ type := .regex, value := some (.str "("), message := none }] }

example : buildZodSchema badPatternField = .error (.badPattern "(") := by decide

end SanityChecks

/-! ### JSON text (`App.tsx` export/import)

`handleExport` serializes the schema with `JSON.stringify` and
`handleImport` re-reads it with `JSON.parse`.  The embedding models the
JSON value space, a compact printer and a parser.  The source passes
`(null, 2)` to `JSON.stringify`, which only inserts whitespace that
`JSON.parse` discards, so the compact form is used here.  Control
characters are escaped with their `\u00XX` form (the printed escape
choice does not affect the parsed value). -/

/-- A JSON value. -/
inductive Json where
  | null
  | bool (b : Bool)
  | num (q : ℚ)
  | str (s : String)
  | arr (xs : List Json)
  | obj (fs : List (String × Json))
deriving Repr

/-! Structural size and decidable equality for the nested `Json` type. -/

mutual

def jsize : Json → Nat
  | .null => 1
  | .bool _ => 1
  | .num _ => 1
  | .str _ => 1
  | .arr xs => jsizeList xs + 1
  | .obj fs => jsizeMembers fs + 1

def jsizeList : List Json → Nat
  | [] => 0
  | x :: xs => jsize x + jsizeList xs + 1

def jsizeMembers : List (String × Json) → Nat
  | [] => 0
  | (_, v) :: fs => jsize v + jsizeMembers fs + 1

end

mutual

def jsonBeq : Json → Json → Bool
  | .null, .null => true
  | .bool a, .bool b => a = b
  | .num a, .num b => a = b
  | .str a, .str b => a = b
  | .arr xs, .arr ys => jsonBeqList xs ys
  | .obj fs, .obj gs => jsonBeqMembers fs gs
  | _, _ => false

def jsonBeqList : List Json → List Json → Bool
  | [], [] => true
  | x :: xs, y :: ys => jsonBeq x y && jsonBeqList xs ys
  | _, _ => false

def jsonBeqMembers : List (String × Json) → List (String × Json) → Bool
  | [], [] => true
  | (k, v) :: fs, (l, w) :: gs => k = l && (jsonBeq v w && jsonBeqMembers fs gs)
  | _, _ => false

end

theorem jsonBeq_iff_all (n : Nat) :
    (∀ a, jsize a ≤ n → ∀ b, (jsonBeq a b = true ↔ a = b)) ∧
    (∀ xs, jsizeList xs ≤ n → ∀ ys, (jsonBeqList xs ys = true ↔ xs = ys)) ∧
    (∀ ms, jsizeMembers ms ≤ n → ∀ ns, (jsonBeqMembers ms ns = true ↔ ms = ns)) := by
  induction n with
  | zero =>
    refine ⟨?_, ?_, ?_⟩
    · intro a ha
      exact absurd ha (by cases a <;> simp [jsize, jsizeList, jsizeMembers])
    · intro xs hxs ys
      cases xs with
      | nil => cases ys <;> simp [jsonBeqList]
      | cons x xs => exact absurd hxs (by simp [jsizeList])
    · intro ms hms ns
      cases ms with
      | nil => cases ns <;> simp [jsonBeqMembers]
      | cons m ms =>
        obtain ⟨k, v⟩ := m
        exact absurd hms (by simp [jsizeMembers])
  | succ n ih =>
    refine ⟨?_, ?_, ?_⟩
    · intro a ha b
      cases a <;> cases b <;> simp [jsonBeq]
      case arr.arr xs ys =>
        have hs : jsizeList xs ≤ n := by simp [jsize] at ha; omega
        exact ih.2.1 xs hs ys
      case obj.obj fs gs =>
        have hs : jsizeMembers fs ≤ n := by simp [jsize] at ha; omega
        exact ih.2.2 fs hs gs
    · intro xs hxs ys
      cases xs with
      | nil => cases ys <;> simp [jsonBeqList]
      | cons x xs =>
        cases ys with
        | nil => simp [jsonBeqList]
        | cons y ys =>
          have h1 : jsize x ≤ n := by simp [jsizeList] at hxs; omega
          have h2 : jsizeList xs ≤ n := by simp [jsizeList] at hxs; omega
          simp [jsonBeqList, Bool.and_eq_true, ih.1 x h1 y, ih.2.1 xs h2 ys]
    · intro ms hms ns
      cases ms with
      | nil => cases ns <;> simp [jsonBeqMembers]
      | cons m ms =>
        obtain ⟨k, v⟩ := m
        cases ns with
        | nil => simp [jsonBeqMembers]
        | cons nn ns =>
          obtain ⟨l, w⟩ := nn
          have h1 : jsize v ≤ n := by simp [jsizeMembers] at hms; omega
          have h2 : jsizeMembers ms ≤ n := by simp [jsizeMembers] at hms; omega
          simp [jsonBeqMembers, Bool.and_eq_true, ih.1 v h1 w, ih.2.2 ms h2 ns, and_assoc]

theorem jsonBeq_iff (a b : Json) : jsonBeq a b = true ↔ a = b :=
  (jsonBeq_iff_all (jsize a)).1 a le_rfl b

instance : DecidableEq Json := fun a b =>
  if h : jsonBeq a b = true then isTrue ((jsonBeq_iff a b).mp h)
  else isFalse fun he => h ((jsonBeq_iff a b).mpr he)

/-- Lower-case hexadecimal digit. -/
def hexDigit (n : Nat) : Char :=
  match n with
  | 0 => '0' | 1 => '1' | 2 => '2' | 3 => '3' | 4 => '4' | 5 => '5'
  | 6 => '6' | 7 => '7' | 8 => '8' | 9 => '9' | 10 => 'a' | 11 => 'b'
  | 12 => 'c' | 13 => 'd' | 14 => 'e' | _ => 'f'

/-- JSON escape of one string character. -/
def escChar1 (c : Char) : List Char :=
  if c = '"' then ['\\', '"']
  else if c = '\\' then ['\\', '\\']
  else if c.toNat < 32 then ['\\', 'u', '0', '0', hexDigit (c.toNat / 16), hexDigit (c.toNat % 16)]
  else [c]

/-- JSON escape of a whole string body. -/
def escString (s : String) : List Char :=
  s.data.foldr (fun c acc => escChar1 c ++ acc) []

/-- A quoted JSON string literal. -/
def quoteString (s : String) : List Char :=
  '"' :: escString s ++ ['"']

/-! Compact JSON printing. -/

mutual

def printJson : Json → List Char
  | .null => "null".data
  | .bool true => "true".data
  | .bool false => "false".data
  | .num q => ratDecChars q
  | .str s => quoteString s
  | .arr xs => '[' :: printElems xs ++ [']']
  | .obj fs => '\x7b' :: printMembers fs ++ ['\x7d']

def printElems : List Json → List Char
  | [] => []
  | [x] => printJson x
  | x :: xs => printJson x ++ ',' :: printElems xs

def printMembers : List (String × Json) → List Char
  | [] => []
  | [(k, v)] => quoteString k ++ ':' :: printJson v
  | (k, v) :: fs => quoteString k ++ ':' :: printJson v ++ ',' :: printMembers fs

end

/-- The serialized text of a JSON value. -/
def stringifyJson (j : Json) : String :=
  ⟨printJson j⟩

/-- Hexadecimal digit value. -/
def parseHex (c : Char) : Option Nat :=
  match digitVal c with
  | some d => some d
  | none =>
    if c = 'a' ∨ c = 'A' then some 10
    else if c = 'b' ∨ c = 'B' then some 11
    else if c = 'c' ∨ c = 'C' then some 12
    else if c = 'd' ∨ c = 'D' then some 13
    else if c = 'e' ∨ c = 'E' then some 14
    else if c = 'f' ∨ c = 'F' then some 15
    else none

/-- Prepends a decoded character to the result of a string-body parse. -/
def pushC (c : Char) : Option (List Char × List Char) → Option (List Char × List Char)
  | some (s, rest) => some (c :: s, rest)
  | none => none

/-- Parses a JSON string body up to the closing quote. -/
def parseStrBody (cs : List Char) : Option (List Char × List Char) :=
  match cs with
  | [] => none
  | c :: rest =>
    if c = '"' then some ([], rest)
    else if c = '\\' then
      match rest with
      | [] => none
      | e :: rest2 =>
        if e = '"' then pushC '"' (parseStrBody rest2)
        else if e = '\\' then pushC '\\' (parseStrBody rest2)
        else if e = '/' then pushC '/' (parseStrBody rest2)
        else if e = 'n' then pushC '\n' (parseStrBody rest2)
        else if e = 't' then pushC '\t' (parseStrBody rest2)
        else if e = 'r' then pushC '\r' (parseStrBody rest2)
        else if e = 'b' then pushC (Char.ofNat 8) (parseStrBody rest2)
        else if e = 'f' then pushC (Char.ofNat 12) (parseStrBody rest2)
        else if e = 'u' then
          match rest2 with
          | h1 :: h2 :: h3 :: h4 :: rest3 =>
            match parseHex h1, parseHex h2, parseHex h3, parseHex h4 with
            | some a, some b, some c3, some d =>
              pushC (Char.ofNat (((a * 16 + b) * 16 + c3) * 16 + d)) (parseStrBody rest3)
            | _, _, _, _ => none
          | _ => none
        else none
    else pushC c (parseStrBody rest)

/-- Parses an unsigned JSON number (integer part, optional fraction),
leaving the unconsumed rest. -/
def parseJsonNumCore (cs : List Char) : Option (ℚ × List Char) :=
  let ip := takeDigits cs
  if ip.1 = [] then none
  else
    match ip.2 with
    | [] => some (qOfInt (natOfDigits ip.1), [])
    | c :: cs3 =>
      if c = '.' then
        let fp := takeDigits cs3
        if fp.1 = [] then none
        else some (qAdd (qOfInt (natOfDigits ip.1))
          (qDivPow10 (qOfInt (natOfDigits fp.1)) fp.1.length), fp.2)
      else some (qOfInt (natOfDigits ip.1), c :: cs3)

/-- Parses a JSON number (optional minus then the unsigned form). -/
def parseJsonNum (cs : List Char) : Option (ℚ × List Char) :=
  match cs with
  | [] => none
  | c :: t =>
    if c = '-' then (parseJsonNumCore t).map fun p => (-p.1, p.2)
    else parseJsonNumCore (c :: t)

/-- Consumes an expected literal token, returning the rest. -/
def dropTok : List Char → List Char → Option (List Char)
  | [], cs => some cs
  | _ :: _, [] => none
  | t :: ts, c :: cs => if c = t then dropTok ts cs else none

theorem dropTok_append (tok rest : List Char) : dropTok tok (tok ++ rest) = some rest := by
  induction tok with
  | nil => rfl
  | cons t ts ih => simp [dropTok, ih]

/-! Fuel-driven JSON value/array/object parsers. -/

mutual

def parseVal : Nat → List Char → Option (Json × List Char)
  | 0, _ => none
  | _ + 1, [] => none
  | fuel + 1, c :: cs =>
    if c = 'n' then (dropTok ['u', 'l', 'l'] cs).map fun rest => (Json.null, rest)
    else if c = 't' then (dropTok ['r', 'u', 'e'] cs).map fun rest => (Json.bool true, rest)
    else if c = 'f' then (dropTok ['a', 'l', 's', 'e'] cs).map fun rest => (Json.bool false, rest)
    else if c = '"' then (parseStrBody cs).map fun p => (Json.str ⟨p.1⟩, p.2)
    else if c = '[' then
      match cs with
      | ']' :: rest => some (Json.arr [], rest)
      | _ =>
        match parseElems fuel cs with
        | some (xs, rest) => some (Json.arr xs, rest)
        | none => none
    else if c = '\x7b' then
      match cs with
      | '\x7d' :: rest => some (Json.obj [], rest)
      | _ =>
        match parseMembers fuel cs with
        | some (fs, rest) => some (Json.obj fs, rest)
        | none => none
    else (parseJsonNum (c :: cs)).map fun p => (Json.num p.1, p.2)

def parseElems : Nat → List Char → Option (List Json × List Char)
  | 0, _ => none
  | fuel + 1, cs =>
    match parseVal fuel cs with
    | none => none
    | some (j, r1) =>
      match r1 with
      | [] => none
      | c :: r2 =>
        if c = ',' then
          match parseElems fuel r2 with
          | some (js, r3) => some (j :: js, r3)
          | none => none
        else if c = ']' then some ([j], r2)
        else none

def parseMembers : Nat → List Char → Option (List (String × Json) × List Char)
  | 0, _ => none
  | fuel + 1, cs =>
    match cs with
    | [] => none
    | c :: r0 =>
      if c = '"' then
        match parseStrBody r0 with
        | none => none
        | some (k, r1) =>
          match r1 with
          | [] => none
          | c1 :: r2 =>
            if c1 = ':' then
              match parseVal fuel r2 with
              | none => none
              | some (v, r3) =>
                match r3 with
                | [] => none
                | c2 :: r4 =>
                  if c2 = ',' then
                    match parseMembers fuel r4 with
                    | some (ms, r5) => some ((⟨k⟩, v) :: ms, r5)
                    | none => none
                  else if c2 = '\x7d' then some ([(⟨k⟩, v)], r4)
                  else none
            else none
      else none

end

/-- Parses JSON text; the whole input must be consumed. -/
def parseJson (s : String) : Option Json :=
  match parseVal (s.length + 1) s.data with
  | some (j, []) => some j
  | _ => none

example : parseJson "null" = some .null := by decide
example : stringifyJson (.arr [.num 1, .str "a", .bool true]) = "[1,\"a\",true]" := by decide
example : parseJson "[1,\"a\",true]" = some (.arr [.num 1, .str "a", .bool true]) := by decide
example : parseJson (stringifyJson (.obj [("a", .num (Rat.divInt 3 2)), ("b", .arr [])])) =
    some (.obj [("a", .num (Rat.divInt 3 2)), ("b", .arr [])]) := by decide

/-! ### Schema export and import (`App.tsx` lines 58 to 91)

`handleExport` runs `JSON.stringify(schema, null, 2)` (the `2` only adds
whitespace that `JSON.parse` ignores); `handleImport` runs `JSON.parse` on
the file text and installs the result.  The source applies no structural
validation at the import boundary; the Schema Model check of the spec is
modelled below and composed into `importSchema`. -/

/-- The wire name of a field type. -/
def fieldTypeStr : FieldType → String
  | .text => "text"
  | .textarea => "textarea"
  | .number => "number"
  | .select => "select"
  | .radio => "radio"
  | .checkbox => "checkbox"
  | .date => "date"

/-- Reads a field type from its wire name. -/
def fieldTypeOfStr (s : String) : Option FieldType :=
  if s = "text" then some .text
  else if s = "textarea" then some .textarea
  else if s = "number" then some .number
  else if s = "select" then some .select
  else if s = "radio" then some .radio
  else if s = "checkbox" then some .checkbox
  else if s = "date" then some .date
  else none

/-- The wire name of a rule type. -/
def ruleTypeStr : RuleType → String
  | .required => "required"
  | .min => "min"
  | .max => "max"
  | .regex => "regex"
  | .custom => "custom"

/-- Reads a rule type from its wire name. -/
def ruleTypeOfStr (s : String) : Option RuleType :=
  if s = "required" then some .required
  else if s = "min" then some .min
  else if s = "max" then some .max
  else if s = "regex" then some .regex
  else if s = "custom" then some .custom
  else none

/-- The wire name of a conditional operator. -/
def condOpStr : CondOp → String
  | .equals => "equals"
  | .notEquals => "notEquals"
  | .contains => "contains"
  | .greaterThan => "greaterThan"
  | .lessThan => "lessThan"

/-- Reads a conditional operator from its wire name. -/
def condOpOfStr (s : String) : Option CondOp :=
  if s = "equals" then some .equals
  else if s = "notEquals" then some .notEquals
  else if s = "contains" then some .contains
  else if s = "greaterThan" then some .greaterThan
  else if s = "lessThan" then some .lessThan
  else none

/-- JSON encoding of a `string | number | boolean` primitive. -/
def JSPrim.toJson : JSPrim → Json
  | .str s => .str s
  | .num q => .num q
  | .bool b => .bool b

/-- Reads a primitive back from JSON. -/
def jsPrimOfJson : Json → Option JSPrim
  | .str s => some (.str s)
  | .num q => some (.num q)
  | .bool b => some (.bool b)
  | _ => none

/-- JSON encoding of a `string | number` rule value. -/
def RuleVal.toJson : RuleVal → Json
  | .str s => .str s
  | .num q => .num q

/-- Reads a rule value back from JSON. -/
def ruleValOfJson : Json → Option RuleVal
  | .str s => some (.str s)
  | .num q => some (.num q)
  | _ => none

/-- The JSON members contributed by a TypeScript-optional property:
`JSON.stringify` drops a property holding `undefined`. -/
def optEntry (k : String) : Option Json → List (String × Json)
  | some j => [(k, j)]
  | none => []

/-- Reads a JSON object. -/
def asObj : Json → Option (List (String × Json))
  | .obj fs => some fs
  | _ => none

/-- Reads a JSON string. -/
def asStr : Json → Option String
  | .str s => some s
  | _ => none

/-- Reads a JSON boolean. -/
def asBool : Json → Option Bool
  | .bool b => some b
  | _ => none

/-- Reads a JSON array. -/
def asArr : Json → Option (List Json)
  | .arr xs => some xs
  | _ => none

/-- Reads an optional member: an absent key decodes to `none`, a present
key must decode. -/
def optDec {α : Type} (fs : List (String × Json)) (k : String) (dec : Json → Option α) :
    Option (Option α) :=
  match fs.lookup k with
  | none => some none
  | some j => (dec j).map some

/-- JSON encoding of a validation rule. -/
def encodeRule (r : ValidationRule) : Json :=
  .obj ([("type", Json.str (ruleTypeStr r.type))]
    ++ optEntry "value" (r.value.map RuleVal.toJson)
    ++ optEntry "message" (r.message.map Json.str))

/-- Reads a validation rule from JSON. -/
def decodeRule (j : Json) : Option ValidationRule := do
  let fs ← asObj j
  let tyS ← (fs.lookup "type").bind asStr
  let ty ← ruleTypeOfStr tyS
  let v ← optDec fs "value" ruleValOfJson
  let m ← optDec fs "message" asStr
  some { type := ty, value := v, message := m }

/-- JSON encoding of a conditional rule. -/
def encodeCond (c : ConditionalRule) : Json :=
  .obj [("field", Json.str c.field),
        ("operator", Json.str (condOpStr c.operator)),
        ("value", c.value.toJson)]

/-- Reads a conditional rule from JSON. -/
def decodeCond (j : Json) : Option ConditionalRule := do
  let fs ← asObj j
  let fld ← (fs.lookup "field").bind asStr
  let opS ← (fs.lookup "operator").bind asStr
  let op ← condOpOfStr opS
  let v ← (fs.lookup "value").bind jsPrimOfJson
  some { field := fld, operator := op, value := v }

/-- JSON encoding of a select/radio option. -/
def encodeFieldOption (o : FieldOption) : Json :=
  .obj [("label", Json.str o.label), ("value", Json.str o.value)]

/-- Reads a select/radio option from JSON. -/
def decodeFieldOption (j : Json) : Option FieldOption := do
  let fs ← asObj j
  let l ← (fs.lookup "label").bind asStr
  let v ← (fs.lookup "value").bind asStr
  some { label := l, value := v }

/-- The JSON members of an encoded field (optional properties omitted when
absent, as `JSON.stringify` does). -/
def fieldMembers (f : FormField) : List (String × Json) :=
  [("id", Json.str f.id), ("name", Json.str f.name),
   ("label", Json.str f.label), ("type", Json.str (fieldTypeStr f.type))]
  ++ (optEntry "helpText" (f.helpText.map Json.str)
  ++ (optEntry "placeholder" (f.placeholder.map Json.str)
  ++ (optEntry "required" (f.required.map Json.bool)
  ++ (optEntry "validation" (f.validation.map fun rs => Json.arr (rs.map encodeRule))
  ++ (optEntry "conditional" (f.conditional.map encodeCond)
  ++ (optEntry "defaultValue" (f.defaultValue.map JSPrim.toJson)
  ++ optEntry "options" (f.options.map fun os => Json.arr (os.map encodeFieldOption))))))))

/-- JSON encoding of a field. -/
def encodeField (f : FormField) : Json :=
  .obj (fieldMembers f)

/-- Reads a field from JSON. -/
def decodeField (j : Json) : Option FormField := do
  let fs ← asObj j
  let i ← (fs.lookup "id").bind asStr
  let nm ← (fs.lookup "name").bind asStr
  let lb ← (fs.lookup "label").bind asStr
  let tyS ← (fs.lookup "type").bind asStr
  let ty ← fieldTypeOfStr tyS
  let ht ← optDec fs "helpText" asStr
  let ph ← optDec fs "placeholder" asStr
  let rq ← optDec fs "required" asBool
  let vl ← optDec fs "validation" fun j => (asArr j).bind (List.mapM decodeRule)
  let cd ← optDec fs "conditional" decodeCond
  let dv ← optDec fs "defaultValue" jsPrimOfJson
  let op ← optDec fs "options" fun j => (asArr j).bind (List.mapM decodeFieldOption)
  some { id := i, name := nm, label := lb, type := ty, helpText := ht,
         placeholder := ph, required := rq, validation := vl,
         conditional := cd, defaultValue := dv, options := op }

/-- JSON encoding of a whole schema. -/
def encodeSchema (s : FormSchema) : Json :=
  .obj ([("title", Json.str s.title)]
    ++ optEntry "description" (s.description.map Json.str)
    ++ [("fields", Json.arr (s.fields.map encodeField))])

/-- Reads a whole schema from JSON. -/
def decodeSchema (j : Json) : Option FormSchema := do
  let fs ← asObj j
  let t ← (fs.lookup "title").bind asStr
  let d ← optDec fs "description" asStr
  let fl ← (fs.lookup "fields").bind fun j => (asArr j).bind (List.mapM decodeField)
  some { title := t, description := d, fields := fl }

/-- Modelled from the spec: the Schema Model structural check of section
4.1, absent from the source, which a conforming import boundary must run:
required keys present and `type` in the closed set (enforced here by the
typed decoding above) and a `select`/`radio` field must carry `options`. -/
def schemaCheck (s : FormSchema) : Bool :=
  s.fields.all fun f =>
    if f.type = .select ∨ f.type = .radio then f.options.isSome else true

/-- `handleExport`: the serialized schema text. -/
def exportSchema (s : FormSchema) : String :=
  stringifyJson (encodeSchema s)

/-- `handleImport` composed with the spec-modelled Schema Model check:
parse the text, decode the schema shape, and gate on the check. -/
def importSchema (raw : String) : Option FormSchema :=
  match parseJson raw with
  | none => none
  | some j =>
    match decodeSchema j with
    | none => none
    | some s => if schemaCheck s then some s else none

/-! ### The codec layer is lossless -/

theorem fieldTypeOfStr_fieldTypeStr (t : FieldType) :
    fieldTypeOfStr (fieldTypeStr t) = some t := by
  cases t <;> rfl

theorem ruleTypeOfStr_ruleTypeStr (t : RuleType) :
    ruleTypeOfStr (ruleTypeStr t) = some t := by
  cases t <;> rfl

theorem condOpOfStr_condOpStr (o : CondOp) :
    condOpOfStr (condOpStr o) = some o := by
  cases o <;> rfl

theorem jsPrimOfJson_toJson (p : JSPrim) :
    jsPrimOfJson p.toJson = some p := by
  cases p <;> rfl

theorem ruleValOfJson_toJson (v : RuleVal) :
    ruleValOfJson v.toJson = some v := by
  cases v <;> rfl

theorem mapM_loop_of_roundtrip {α : Type} (enc : α → Json) (dec : Json → Option α)
    (h : ∀ x, dec (enc x) = some x) :
    ∀ (xs acc : List α), List.mapM.loop dec (xs.map enc) acc = some (acc.reverse ++ xs) := by
  intro xs
  induction xs with
  | nil => intro acc; simp [List.mapM.loop]
  | cons x xs ih =>
    intro acc
    simp [List.mapM.loop, h x, ih (x :: acc)]

theorem mapM_of_roundtrip {α : Type} (enc : α → Json) (dec : Json → Option α)
    (h : ∀ x, dec (enc x) = some x) (xs : List α) :
    List.mapM dec (xs.map enc) = some xs := by
  have := mapM_loop_of_roundtrip enc dec h xs []
  simpa [List.mapM] using this

theorem decodeRule_encodeRule (r : ValidationRule) : decodeRule (encodeRule r) = some r := by
  obtain ⟨ty, v, m⟩ := r
  cases v <;> cases m <;>
    simp [decodeRule, encodeRule, asObj, optDec, optEntry, List.lookup, asStr,
      ruleTypeOfStr_ruleTypeStr, ruleValOfJson_toJson]

theorem decodeCond_encodeCond (c : ConditionalRule) : decodeCond (encodeCond c) = some c := by
  obtain ⟨fld, op, v⟩ := c
  simp [decodeCond, encodeCond, asObj, List.lookup, asStr,
    condOpOfStr_condOpStr, jsPrimOfJson_toJson]

theorem decodeFieldOption_encodeFieldOption (o : FieldOption) :
    decodeFieldOption (encodeFieldOption o) = some o := by
  obtain ⟨l, v⟩ := o
  simp [decodeFieldOption, encodeFieldOption, asObj, List.lookup, asStr]

theorem mapM_decodeRule (rs : List ValidationRule) :
    List.mapM decodeRule (rs.map encodeRule) = some rs :=
  mapM_of_roundtrip encodeRule decodeRule decodeRule_encodeRule rs

theorem mapM_loop_decodeRule (rs : List ValidationRule) :
    List.mapM.loop decodeRule (rs.map encodeRule) [] = some rs := by
  simpa using mapM_loop_of_roundtrip encodeRule decodeRule decodeRule_encodeRule rs []

theorem mapM_decodeFieldOption (os : List FieldOption) :
    List.mapM decodeFieldOption (os.map encodeFieldOption) = some os :=
  mapM_of_roundtrip encodeFieldOption decodeFieldOption decodeFieldOption_encodeFieldOption os

theorem mapM_loop_decodeFieldOption (os : List FieldOption) :
    List.mapM.loop decodeFieldOption (os.map encodeFieldOption) [] = some os := by
  simpa using
    mapM_loop_of_roundtrip encodeFieldOption decodeFieldOption decodeFieldOption_encodeFieldOption os []

theorem lookup_optEntry_append (k k' : String) (o : Option Json) (rest : List (String × Json)) :
    List.lookup k (optEntry k' o ++ rest) =
      if k == k' then
        match o with
        | some j => some j
        | none => List.lookup k rest
      else List.lookup k rest := by
  by_cases h : k = k'
  · subst h
    cases o <;> simp [optEntry, List.lookup]
  · have hb : (k == k') = false := beq_eq_false_iff_ne.mpr h
    cases o <;> simp [optEntry, List.lookup, hb, h]

theorem mem_optEntry_iff {k : String} {j : Json} {k' : String} {o : Option Json} :
    ((k, j) ∈ optEntry k' o) ↔ (k = k' ∧ o = some j) := by
  cases o <;> simp [optEntry, And.comm]
  exact fun _ => eq_comm

theorem lookup_optEntry_ne (k k' : String) (h : (k == k') = false) (o : Option Json) :
    List.lookup k (optEntry k' o) = none := by
  cases o <;> simp [optEntry, List.lookup, h]

theorem optDec_eq {α : Type} (fs : List (String × Json)) (k : String)
    (dec : Json → Option α) (enc : α → Json) (o : Option α)
    (hl : List.lookup k fs = o.map enc)
    (hd : ∀ x, dec (enc x) = some x) : optDec fs k dec = some o := by
  cases o with
  | none =>
    have hl' : List.lookup k fs = none := by simpa using hl
    simp [optDec, hl']
  | some x =>
    have hl' : List.lookup k fs = some (enc x) := by simpa using hl
    simp [optDec, hl', hd]

set_option maxHeartbeats 2000000 in
theorem decodeField_encodeField (f : FormField) : decodeField (encodeField f) = some f := by
  have h_id : List.lookup "id" (fieldMembers f) = some (Json.str f.id) := by
    simp [fieldMembers, List.lookup]
  have h_name : List.lookup "name" (fieldMembers f) = some (Json.str f.name) := by
    simp [fieldMembers, List.lookup]
  have h_label : List.lookup "label" (fieldMembers f) = some (Json.str f.label) := by
    simp [fieldMembers, List.lookup]
  have h_type : List.lookup "type" (fieldMembers f) = some (Json.str (fieldTypeStr f.type)) := by
    simp [fieldMembers, List.lookup]
  have h_ht : optDec (fieldMembers f) "helpText" asStr = some f.helpText := by
    refine optDec_eq _ _ _ Json.str _ ?_ fun x => rfl
    cases h : f.helpText <;> simp [fieldMembers, List.lookup, lookup_optEntry_append, lookup_optEntry_ne, mem_optEntry_iff, h]
  have h_ph : optDec (fieldMembers f) "placeholder" asStr = some f.placeholder := by
    refine optDec_eq _ _ _ Json.str _ ?_ fun x => rfl
    cases h : f.placeholder <;> simp [fieldMembers, List.lookup, lookup_optEntry_append, lookup_optEntry_ne, mem_optEntry_iff, h]
  have h_rq : optDec (fieldMembers f) "required" asBool = some f.required := by
    refine optDec_eq _ _ _ Json.bool _ ?_ fun x => rfl
    cases h : f.required <;> simp [fieldMembers, List.lookup, lookup_optEntry_append, lookup_optEntry_ne, mem_optEntry_iff, h]
  have h_vl : optDec (fieldMembers f) "validation"
      (fun j => (asArr j).bind (List.mapM decodeRule)) = some f.validation := by
    refine optDec_eq _ _ _ (fun rs => Json.arr (rs.map encodeRule)) _ ?_
      fun rs => by simp [asArr, mapM_decodeRule, mapM_loop_decodeRule]
    cases h : f.validation <;> simp [fieldMembers, List.lookup, lookup_optEntry_append, lookup_optEntry_ne, mem_optEntry_iff, h]
  have h_cd : optDec (fieldMembers f) "conditional" decodeCond = some f.conditional := by
    refine optDec_eq _ _ _ encodeCond _ ?_ decodeCond_encodeCond
    cases h : f.conditional <;> simp [fieldMembers, List.lookup, lookup_optEntry_append, lookup_optEntry_ne, mem_optEntry_iff, h]
  have h_dv : optDec (fieldMembers f) "defaultValue" jsPrimOfJson = some f.defaultValue := by
    refine optDec_eq _ _ _ JSPrim.toJson _ ?_ jsPrimOfJson_toJson
    cases h : f.defaultValue <;> simp [fieldMembers, List.lookup, lookup_optEntry_append, lookup_optEntry_ne, mem_optEntry_iff, h]
  have h_op : optDec (fieldMembers f) "options"
      (fun j => (asArr j).bind (List.mapM decodeFieldOption)) = some f.options := by
    refine optDec_eq _ _ _ (fun os => Json.arr (os.map encodeFieldOption)) _ ?_
      fun os => by simp [asArr, mapM_decodeFieldOption, mapM_loop_decodeFieldOption]
    cases h : f.options <;> simp [fieldMembers, List.lookup, lookup_optEntry_append, lookup_optEntry_ne, mem_optEntry_iff, h]
  simp only [List.mapM] at h_vl h_op
  simp [decodeField, encodeField, asObj, h_id, h_name, h_label, h_type,
    fieldTypeOfStr_fieldTypeStr, h_ht, h_ph, h_rq, h_vl, h_cd, h_dv, h_op, asStr]

theorem mapM_decodeField (fs : List FormField) :
    List.mapM decodeField (fs.map encodeField) = some fs :=
  mapM_of_roundtrip encodeField decodeField decodeField_encodeField fs

theorem mapM_loop_decodeField (fs : List FormField) :
    List.mapM.loop decodeField (fs.map encodeField) [] = some fs := by
  simpa using mapM_loop_of_roundtrip encodeField decodeField decodeField_encodeField fs []

theorem decodeSchema_encodeSchema (s : FormSchema) : decodeSchema (encodeSchema s) = some s := by
  obtain ⟨t, d, fl⟩ := s
  cases d <;>
    simp [decodeSchema, encodeSchema, asObj, optDec, optEntry, List.lookup, asStr, asArr,
      mapM_decodeField, mapM_loop_decodeField]

/-! ### Decimal printing and parsing invert each other -/

/-- The decimal digit list a printed natural consists of. -/
def reprDigits (n : Nat) : List Nat :=
  if n = 0 then [0] else (natDigitsLE n).reverse

theorem natRepr_eq_map (n : Nat) : natRepr n = (reprDigits n).map digitChar := by
  unfold natRepr reprDigits natDigitsChars
  split <;> rfl

theorem reprDigits_lt (n : Nat) : ∀ d ∈ reprDigits n, d < 10 := by
  intro d hd
  unfold reprDigits at hd
  split at hd
  · simp at hd
    omega
  · rw [natDigitsLE_eq] at hd
    rw [List.mem_reverse] at hd
    exact Nat.digits_lt_base (by norm_num) hd

theorem reprDigits_ne_nil (n : Nat) : reprDigits n ≠ [] := by
  unfold reprDigits
  split
  · simp
  · rw [natDigitsLE_eq]
    simp [Nat.digits_ne_nil_iff_ne_zero]
    assumption

theorem reprDigits_len_le {m e : Nat} (hm : m < 10 ^ e) (he : 0 < e) :
    (reprDigits m).length ≤ e := by
  unfold reprDigits
  split
  · simpa using he
  · rw [natDigitsLE_eq, List.length_reverse,
      Nat.digits_len 10 m (by norm_num) (by assumption)]
    have := Nat.log_lt_of_lt_pow (by assumption) hm
    omega

theorem digitVal_digitChar {d : Nat} (h : d < 10) : digitVal (digitChar d) = some d := by
  interval_cases d <;> rfl

/-- What must follow a printed digit run so that the digit scan stops. -/
def digitStop : List Char → Prop
  | [] => True
  | c :: _ => digitVal c = none

/-- What must follow a printed number so that the digit scan stops there. -/
def numStop : List Char → Prop
  | [] => True
  | c :: _ => digitVal c = none ∧ c ≠ '.'

theorem takeDigits_map_append (ds : List Nat) (h : ∀ d ∈ ds, d < 10) (rest : List Char)
    (hr : digitStop rest) : takeDigits (ds.map digitChar ++ rest) = (ds, rest) := by
  induction ds with
  | nil =>
    cases rest with
    | nil => rfl
    | cons c cs => simp [takeDigits, show digitVal c = none from hr]
  | cons d ds ih =>
    simp only [List.map_cons, List.cons_append, takeDigits,
      digitVal_digitChar (h d (by simp)), List.append_eq,
      ih (fun x hx => h x (by simp [hx]))]

theorem foldl_digits_from (ds : List Nat) :
    ∀ acc : Nat, List.foldl (fun a d => a * 10 + d) acc ds = acc * 10 ^ ds.length + natOfDigits ds := by
  induction ds with
  | nil => intro acc; simp [natOfDigits]
  | cons d ds ih =>
    intro acc
    have h1 := ih (acc * 10 + d)
    have h2 := ih d
    simp only [List.foldl_cons, natOfDigits, List.length_cons] at h1 h2 ⊢
    rw [h1, show 0 * 10 + d = d from by omega, h2]
    ring

theorem natOfDigits_replicate_zero (z : Nat) (ds : List Nat) :
    natOfDigits (List.replicate z 0 ++ ds) = natOfDigits ds := by
  induction z with
  | zero => rfl
  | succ z ih => simpa [natOfDigits, List.replicate_succ] using ih

theorem natOfDigits_reverse (L : List Nat) : natOfDigits L.reverse = Nat.ofDigits 10 L := by
  induction L with
  | nil => rfl
  | cons d L ih =>
    rw [List.reverse_cons, Nat.ofDigits_cons]
    unfold natOfDigits
    rw [List.foldl_append, foldl_digits_from]
    unfold natOfDigits at ih
    rw [ih]
    simp [natOfDigits, pow_one]
    omega

theorem natOfDigits_reprDigits (n : Nat) : natOfDigits (reprDigits n) = n := by
  unfold reprDigits
  split
  · simp [natOfDigits]
    omega
  · rw [natDigitsLE_eq, natOfDigits_reverse, Nat.ofDigits_digits]

theorem numStop_digitStop {rest : List Char} (hr : numStop rest) : digitStop rest := by
  cases rest with
  | nil => trivial
  | cons c cs => exact hr.1

theorem decExp_dvd {d e : Nat} (h : decExp d = some e) : d ∣ 10 ^ e := by
  have hp := List.find?_some h
  simp at hp
  exact Nat.dvd_of_mod_eq_zero hp

theorem toNat_num_qMul (q : ℚ) (hq : 0 ≤ q) {e : Nat} (hdvd : q.den ∣ 10 ^ e) :
    (((qMul q (qOfInt (10 ^ e))).num.toNat : ℚ)) = q * 10 ^ e := by
  have h1 : qMul q (qOfInt (10 ^ e)) = q * 10 ^ e := by
    rw [qMul_eq, qOfInt_eq]
    push_cast
    ring
  obtain ⟨k, hk⟩ := hdvd
  have hden : (q.den : ℚ) ≠ 0 := Nat.cast_ne_zero.mpr q.den_nz
  have h2 : q * 10 ^ e = ((q.num * k : ℤ) : ℚ) := by
    have h10 : ((10 : ℚ)) ^ e = (q.den : ℚ) * k := by exact_mod_cast hk
    conv_lhs => rw [← Rat.num_div_den q, h10]
    push_cast
    field_simp
    ring
  have hnum : (0 : ℤ) ≤ q.num * k :=
    mul_nonneg (Rat.num_nonneg.mpr hq) (Int.ofNat_nonneg k)
  rw [h1, h2, Rat.num_intCast]
  have h3 : (((q.num * (k : ℤ)).toNat : ℤ)) = q.num * k := Int.toNat_of_nonneg hnum
  exact_mod_cast h3

theorem padZeros_eq_map (e m : Nat) :
    padZeros e m = (List.replicate (e - (reprDigits m).length) 0 ++ reprDigits m).map digitChar := by
  unfold padZeros
  rw [natRepr_eq_map, List.map_append, List.map_replicate, List.length_map]
  rfl

theorem parseJsonNumCore_print (q : ℚ) (hq : 0 ≤ q) {e : Nat} (he : decExp q.den = some e)
    (rest : List Char) (hr : numStop rest) :
    parseJsonNumCore (ratDecCharsNonneg q ++ rest) = some (q, rest) := by
  have hnq : (((qMul q (qOfInt (10 ^ e))).num.toNat : ℚ)) = q * 10 ^ e :=
    toNat_num_qMul q hq (decExp_dvd he)
  set n := (qMul q (qOfInt (10 ^ e))).num.toNat with hn
  have hds := numStop_digitStop hr
  by_cases he0 : e = 0
  · subst he0
    have hprint : ratDecCharsNonneg q = (reprDigits n).map digitChar := by
      rw [hn]
      simp [ratDecCharsNonneg, he, natRepr_eq_map]
    have hval : qOfInt ((natOfDigits (reprDigits n) : Nat)) = q := by
      rw [natOfDigits_reprDigits, qOfInt_eq]
      push_cast
      rw [hnq]
      simp
    rw [hprint]
    unfold parseJsonNumCore
    rw [takeDigits_map_append _ (reprDigits_lt n) rest hds]
    cases rest with
    | nil => simp [reprDigits_ne_nil n, hval]
    | cons c cs =>
      have hc : ¬(c = '.') := hr.2
      simp [reprDigits_ne_nil n, hval, hc]
  · have he1 : 0 < e := Nat.pos_of_ne_zero he0
    set i := n / 10 ^ e with hi
    set m := n % 10 ^ e with hm
    have hmlt : m < 10 ^ e := by
      rw [hm]
      exact Nat.mod_lt n (by positivity)
    have hlen : (reprDigits m).length ≤ e := reprDigits_len_le hmlt he1
    have hprint : ratDecCharsNonneg q = (reprDigits i).map digitChar ++
        '.' :: (List.replicate (e - (reprDigits m).length) 0 ++ reprDigits m).map digitChar := by
      simp [ratDecCharsNonneg, he, ← hn, natRepr_eq_map, padZeros_eq_map, he0, ← hi, ← hm]
    have hdlt : ∀ d ∈ List.replicate (e - (reprDigits m).length) 0 ++ reprDigits m, d < 10 := by
      intro d hd
      rcases List.mem_append.mp hd with h | h
      · rw [List.eq_of_mem_replicate h]
        omega
      · exact reprDigits_lt m d h
    have hne : List.replicate (e - (reprDigits m).length) 0 ++ reprDigits m ≠ [] := by
      simp [reprDigits_ne_nil m]
    have hnatf : natOfDigits (List.replicate (e - (reprDigits m).length) 0 ++ reprDigits m) = m := by
      rw [natOfDigits_replicate_zero, natOfDigits_reprDigits]
    have hlenf : (List.replicate (e - (reprDigits m).length) 0 ++ reprDigits m).length = e := by
      simp
      omega
    have hnsplit : 10 ^ e * i + m = n := by
      rw [hi, hm]
      exact Nat.div_add_mod n (10 ^ e)
    have hlen2 : e - (reprDigits m).length + (reprDigits m).length = e := by omega
    have hval : qAdd (qOfInt ((natOfDigits (reprDigits i) : Nat)))
        (qDivPow10 (qOfInt ((natOfDigits (List.replicate (e - (reprDigits m).length) 0
          ++ reprDigits m) : Nat))) e) = q := by
      rw [natOfDigits_reprDigits, hnatf, qAdd_eq, qOfInt_eq, qOfInt_eq, qDivPow10_eq]
      have hkey : (i : ℚ) * 10 ^ e + m = q * 10 ^ e := by
        rw [← hnq]
        exact_mod_cast by rw [Nat.mul_comm]; exact hnsplit
      have h10 : ((10 : ℚ)) ^ e ≠ 0 := by positivity
      field_simp
      linear_combination hkey
    have hdot : ∀ t : List Char, digitStop ('.' :: t) := fun t => by
      show digitVal '.' = none
      decide
    have htakeF : takeDigits (List.replicate (e - (reprDigits m).length) (digitChar 0) ++
        (List.map digitChar (reprDigits m) ++ rest)) =
        (List.replicate (e - (reprDigits m).length) 0 ++ reprDigits m, rest) := by
      have h0 := takeDigits_map_append _ hdlt rest hds
      simpa using h0
    have htakeI : takeDigits (List.map digitChar (reprDigits i) ++
        '.' :: (List.replicate (e - (reprDigits m).length) (digitChar 0) ++
          (List.map digitChar (reprDigits m) ++ rest))) =
        (reprDigits i, '.' :: (List.replicate (e - (reprDigits m).length) (digitChar 0) ++
          (List.map digitChar (reprDigits m) ++ rest))) :=
      takeDigits_map_append _ (reprDigits_lt i) _ (hdot _)
    rw [hprint, List.append_assoc, List.cons_append]
    simp [parseJsonNumCore, htakeI, htakeF, reprDigits_ne_nil i, hne, hlen2, hval]

theorem ratDecCharsNonneg_head (q : ℚ) {e : Nat} (he : decExp q.den = some e) :
    ∃ d t, ratDecCharsNonneg q = digitChar d :: t ∧ d < 10 := by
  by_cases he0 : e = 0
  · subst he0
    obtain ⟨d0, ds0, hrep⟩ : ∃ d0 ds0,
        reprDigits ((qMul q (qOfInt (10 ^ 0))).num.toNat) = d0 :: ds0 := by
      cases hx : reprDigits ((qMul q (qOfInt (10 ^ 0))).num.toNat) with
      | nil => exact absurd hx (reprDigits_ne_nil _)
      | cons a b => exact ⟨a, b, rfl⟩
    refine ⟨d0, ds0.map digitChar, ?_,
      reprDigits_lt _ d0 (by rw [hrep]; exact List.mem_cons_self d0 ds0)⟩
    simp only [ratDecCharsNonneg, he]
    rw [if_true, natRepr_eq_map, hrep, List.map_cons]
  · obtain ⟨a0, as0, hrep⟩ : ∃ a0 as0,
        reprDigits ((qMul q (qOfInt (10 ^ e))).num.toNat / 10 ^ e) = a0 :: as0 := by
      cases hx : reprDigits ((qMul q (qOfInt (10 ^ e))).num.toNat / 10 ^ e) with
      | nil => exact absurd hx (reprDigits_ne_nil _)
      | cons a b => exact ⟨a, b, rfl⟩
    refine ⟨a0, List.map digitChar as0 ++
      '.' :: padZeros e ((qMul q (qOfInt (10 ^ e))).num.toNat % 10 ^ e), ?_,
      reprDigits_lt _ a0 (by rw [hrep]; exact List.mem_cons_self a0 as0)⟩
    simp only [ratDecCharsNonneg, he]
    rw [if_neg he0, natRepr_eq_map, hrep, List.map_cons, List.cons_append]

theorem parseJsonNum_print (q : ℚ) (hfin : (decExp q.den).isSome) (rest : List Char)
    (hr : numStop rest) : parseJsonNum (ratDecChars q ++ rest) = some (q, rest) := by
  obtain ⟨e, he⟩ := Option.isSome_iff_exists.mp hfin
  by_cases hneg : q < 0
  · have hq : 0 ≤ -q := by linarith
    have he2 : decExp (-q).den = some e := by rw [Rat.neg_den]; exact he
    rw [ratDecChars, if_pos hneg, List.cons_append, parseJsonNum, if_pos rfl,
      parseJsonNumCore_print (-q) hq he2 rest hr]
    simp
  · have hq : 0 ≤ q := by linarith
    rw [ratDecChars, if_neg hneg]
    obtain ⟨d, t, hct, hd⟩ := ratDecCharsNonneg_head q he
    have hcne : ¬(digitChar d = '-') := by
      intro hcc
      have h1 := digitVal_digitChar hd
      rw [hcc] at h1
      simp [digitVal] at h1
    rw [hct, List.cons_append, parseJsonNum, if_neg hcne, ← List.cons_append, ← hct,
      parseJsonNumCore_print q hq he rest hr]

theorem parseHex_hexDigit {n : Nat} (h : n < 16) : parseHex (hexDigit n) = some n := by
  interval_cases n <;> rfl

theorem parseStrBody_esc (cs : List Char) (rest : List Char) :
    parseStrBody (cs.foldr (fun c acc => escChar1 c ++ acc) [] ++ ('"' :: rest)) =
      some (cs, rest) := by
  induction cs with
  | nil =>
    rw [List.foldr_nil, List.nil_append, parseStrBody.eq_def]
    simp
  | cons c cs ih =>
    rw [List.foldr_cons, List.append_assoc]
    by_cases h1 : c = '"'
    · subst h1
      rw [show escChar1 '"' = ['\\', '"'] from rfl, List.cons_append, List.cons_append,
        List.nil_append, parseStrBody.eq_def]
      simp [pushC, ih]
    · by_cases h2 : c = '\\'
      · subst h2
        rw [show escChar1 '\\' = ['\\', '\\'] from rfl, List.cons_append, List.cons_append,
          List.nil_append, parseStrBody.eq_def]
        simp [pushC, ih]
      · by_cases h3 : c.toNat < 32
        · have hhi : c.toNat / 16 < 16 := by omega
          have hlo : c.toNat % 16 < 16 := by omega
          have harith : c.toNat / 16 * 16 + c.toNat % 16 = c.toNat := by omega
          have hz : parseHex '0' = some 0 := by decide
          rw [show escChar1 c = ['\\', 'u', '0', '0', hexDigit (c.toNat / 16),
              hexDigit (c.toNat % 16)] from by simp [escChar1, h1, h2, h3]]
          simp only [List.cons_append, List.nil_append]
          rw [parseStrBody.eq_def]
          simp [hz, parseHex_hexDigit hhi, parseHex_hexDigit hlo, harith,
            Char.ofNat_toNat, pushC, ih]
        · rw [show escChar1 c = [c] from by simp [escChar1, h1, h2, h3],
            List.cons_append, List.nil_append, parseStrBody.eq_def]
          simp [h1, h2, pushC, ih]

theorem escString_data (s : String) :
    escString s = s.data.foldr (fun c acc => escChar1 c ++ acc) [] := rfl

theorem parseStrBody_quote (s : String) (rest : List Char) :
    parseStrBody (escString s ++ ('"' :: rest)) = some (s.data, rest) := by
  rw [escString_data]
  exact parseStrBody_esc s.data rest

/-! ### The JSON parser inverts the printer -/

/-! Every number in the value must have a finite decimal expansion for the
printed text to reparse exactly (true of every JavaScript double, whose
denominator is a power of two). -/

mutual

def finiteB : Json → Bool
  | .num q => (decExp q.den).isSome
  | .arr xs => finiteElemsB xs
  | .obj fs => finiteMembersB fs
  | _ => true

def finiteElemsB : List Json → Bool
  | [] => true
  | x :: xs => finiteB x && finiteElemsB xs

def finiteMembersB : List (String × Json) → Bool
  | [] => true
  | (_, v) :: fs => finiteB v && finiteMembersB fs

end

theorem natRepr_ne_nil (n : Nat) : natRepr n ≠ [] := by
  rw [natRepr_eq_map]
  simp [reprDigits_ne_nil n]

theorem ratDecChars_head (q : ℚ) :
    ∃ c t, ratDecChars q = c :: t ∧ (c = '-' ∨ ∃ d, d < 10 ∧ c = digitChar d) := by
  unfold ratDecChars
  by_cases hq : q < 0
  · exact ⟨'-', _, by rw [if_pos hq], Or.inl rfl⟩
  · rw [if_neg hq]
    cases he : decExp q.den with
    | some e =>
      obtain ⟨d, t, hct, hd⟩ := ratDecCharsNonneg_head q he
      exact ⟨digitChar d, t, hct, Or.inr ⟨d, hd, rfl⟩⟩
    | none =>
      obtain ⟨d0, ds0, hrep⟩ : ∃ d0 ds0,
          reprDigits (q.num.toNat) = d0 :: ds0 := by
        cases hx : reprDigits (q.num.toNat) with
        | nil => exact absurd hx (reprDigits_ne_nil _)
        | cons a b => exact ⟨a, b, rfl⟩
      refine ⟨digitChar d0, ds0.map digitChar, ?_,
        Or.inr ⟨d0, reprDigits_lt _ d0 (by rw [hrep]; exact List.mem_cons_self d0 ds0), rfl⟩⟩
      simp only [ratDecCharsNonneg, he]
      rw [natRepr_eq_map, hrep, List.map_cons]

theorem numHead_props {c : Char} (h : c = '-' ∨ ∃ d, d < 10 ∧ c = digitChar d) :
    c ≠ 'n' ∧ c ≠ 't' ∧ c ≠ 'f' ∧ c ≠ '"' ∧ c ≠ '[' ∧ c ≠ '\x7b' ∧ c ≠ ']' ∧ c ≠ '\x7d' := by
  rcases h with h | ⟨d, hd, h⟩
  · subst h
    refine ⟨?_, ?_, ?_, ?_, ?_, ?_, ?_, ?_⟩ <;> decide
  · subst h
    interval_cases d <;> (refine ⟨?_, ?_, ?_, ?_, ?_, ?_, ?_, ?_⟩ <;> decide)

/-- The head character of any printed JSON value, with the two delimiters
it can never be. -/
theorem printJson_head (j : Json) :
    ∃ c t, printJson j = c :: t ∧ c ≠ ']' ∧ c ≠ '\x7d' := by
  cases j with
  | null => exact ⟨'n', _, rfl, by decide, by decide⟩
  | bool b =>
    cases b
    · exact ⟨'f', _, rfl, by decide, by decide⟩
    · exact ⟨'t', _, rfl, by decide, by decide⟩
  | num q =>
    obtain ⟨c, t, hct, hp⟩ := ratDecChars_head q
    have hn := numHead_props hp
    exact ⟨c, t, hct, hn.2.2.2.2.2.2.1, hn.2.2.2.2.2.2.2⟩
  | str s => exact ⟨'"', _, rfl, by decide, by decide⟩
  | arr xs => exact ⟨'[', _, rfl, by decide, by decide⟩
  | obj fs => exact ⟨'\x7b', _, rfl, by decide, by decide⟩

theorem jsize_pos (j : Json) : 1 ≤ jsize j := by
  cases j <;> simp [jsize]

theorem jsize_le_print (n : Nat) :
    (∀ j, jsize j ≤ n → jsize j ≤ (printJson j).length) ∧
    (∀ xs, jsizeList xs ≤ n → jsizeList xs ≤ (printElems xs).length + 1) ∧
    (∀ ms, jsizeMembers ms ≤ n → jsizeMembers ms ≤ (printMembers ms).length + 1) := by
  induction n with
  | zero =>
    refine ⟨?_, ?_, ?_⟩
    · intro j hj
      exact absurd hj (by have := jsize_pos j; omega)
    · intro xs hxs
      cases xs with
      | nil => simp [jsizeList]
      | cons x xs => exact absurd hxs (by simp [jsizeList])
    · intro ms hms
      cases ms with
      | nil => simp [jsizeMembers]
      | cons m ms =>
        obtain ⟨k, v⟩ := m
        exact absurd hms (by simp [jsizeMembers])
  | succ n ih =>
    refine ⟨?_, ?_, ?_⟩
    · intro j hj
      cases j with
      | null => simp [jsize, printJson]
      | bool b => cases b <;> simp [jsize, printJson]
      | num q =>
        have h1 : ratDecChars q ≠ [] := by
          obtain ⟨c, t, hct, _⟩ := ratDecChars_head q
          simp [hct]
        have h2 : 0 < (ratDecChars q).length := List.length_pos.mpr h1
        simp [jsize, printJson]
        omega
      | str s => simp [jsize, printJson, quoteString]
      | arr xs =>
        have hx : jsizeList xs ≤ n := by simp [jsize] at hj; omega
        have := ih.2.1 xs hx
        simp [jsize, printJson]
        omega
      | obj fs =>
        have hx : jsizeMembers fs ≤ n := by simp [jsize] at hj; omega
        have := ih.2.2 fs hx
        simp [jsize, printJson]
        omega
    · intro xs hxs
      cases xs with
      | nil => simp [jsizeList]
      | cons x xs =>
        have hx : jsize x ≤ n := by simp [jsizeList] at hxs; omega
        have hxs2 : jsizeList xs ≤ n := by simp [jsizeList] at hxs; omega
        have h1 := ih.1 x hx
        have h2 := ih.2.1 xs hxs2
        cases xs with
        | nil => simp [jsizeList, printElems] at h2 ⊢; omega
        | cons y ys =>
          simp [jsizeList, printElems] at h1 h2 ⊢
          omega
    · intro ms hms
      cases ms with
      | nil => simp [jsizeMembers]
      | cons m ms =>
        obtain ⟨k, v⟩ := m
        have hv : jsize v ≤ n := by simp [jsizeMembers] at hms; omega
        have hms2 : jsizeMembers ms ≤ n := by simp [jsizeMembers] at hms; omega
        have h1 := ih.1 v hv
        have h2 := ih.2.2 ms hms2
        cases ms with
        | nil => simp [jsizeMembers, printMembers] at h2 ⊢; omega
        | cons m2 ms2 =>
          obtain ⟨k2, v2⟩ := m2
          simp [jsizeMembers, printMembers] at h1 h2 ⊢
          omega

theorem String_mk_data (s : String) : String.mk s.data = s := by
  cases s
  rfl

theorem numStop_comma (X : List Char) : numStop (',' :: X) := ⟨by decide, by decide⟩

theorem numStop_rbracket (X : List Char) : numStop (']' :: X) := ⟨by decide, by decide⟩

theorem numStop_rbrace (X : List Char) : numStop ('\x7d' :: X) := ⟨by decide, by decide⟩

theorem printElems_cons (x : Json) (xs : List Json) :
    printElems (x :: xs) = printJson x ++ (if xs.isEmpty then [] else ',' :: printElems xs) := by
  cases xs <;> simp [printElems]

/-! Unfolding equations for the fuel parsers, stated per head character so that
they are checked by definitional reduction. -/

theorem parseVal_null (f : Nat) (cs : List Char) :
    parseVal (f + 1) ('n' :: cs) =
      (dropTok ['u', 'l', 'l'] cs).map fun rest => (Json.null, rest) := rfl

theorem parseVal_true (f : Nat) (cs : List Char) :
    parseVal (f + 1) ('t' :: cs) =
      (dropTok ['r', 'u', 'e'] cs).map fun rest => (Json.bool true, rest) := rfl

theorem parseVal_false (f : Nat) (cs : List Char) :
    parseVal (f + 1) ('f' :: cs) =
      (dropTok ['a', 'l', 's', 'e'] cs).map fun rest => (Json.bool false, rest) := rfl

theorem parseVal_quote (f : Nat) (cs : List Char) :
    parseVal (f + 1) ('"' :: cs) =
      (parseStrBody cs).map fun p => (Json.str ⟨p.1⟩, p.2) := rfl

theorem parseVal_arr_nil (f : Nat) (rest : List Char) :
    parseVal (f + 1) ('[' :: ']' :: rest) = some (Json.arr [], rest) := rfl

theorem parseVal_arr_go (f : Nat) (c0 : Char) (T : List Char) (h : ¬c0 = ']') :
    parseVal (f + 1) ('[' :: c0 :: T) =
      (match parseElems f (c0 :: T) with
       | some (xs, rest) => some (Json.arr xs, rest)
       | none => none) := by
  have e : parseVal (f + 1) ('[' :: c0 :: T) =
      (match c0 :: T with
       | ']' :: rest => some (Json.arr [], rest)
       | _ =>
         match parseElems f (c0 :: T) with
         | some (xs, rest) => some (Json.arr xs, rest)
         | none => none) := rfl
  rw [e]
  split
  · next rest heq =>
      injection heq with h1 _
      exact absurd h1 h
  · rfl

theorem parseVal_obj_nil (f : Nat) (rest : List Char) :
    parseVal (f + 1) ('\x7b' :: '\x7d' :: rest) = some (Json.obj [], rest) := rfl

theorem parseVal_obj_go (f : Nat) (c0 : Char) (T : List Char) (h : ¬c0 = '\x7d') :
    parseVal (f + 1) ('\x7b' :: c0 :: T) =
      (match parseMembers f (c0 :: T) with
       | some (fs, rest) => some (Json.obj fs, rest)
       | none => none) := by
  have e : parseVal (f + 1) ('\x7b' :: c0 :: T) =
      (match c0 :: T with
       | '\x7d' :: rest => some (Json.obj [], rest)
       | _ =>
         match parseMembers f (c0 :: T) with
         | some (fs, rest) => some (Json.obj fs, rest)
         | none => none) := rfl
  rw [e]
  split
  · next rest heq =>
      injection heq with h1 _
      exact absurd h1 h
  · rfl

theorem parseVal_num (f : Nat) (c : Char) (cs : List Char) (h1 : ¬c = 'n') (h2 : ¬c = 't')
    (h3 : ¬c = 'f') (h4 : ¬c = '"') (h5 : ¬c = '[') (h6 : ¬c = '\x7b') :
    parseVal (f + 1) (c :: cs) =
      (parseJsonNum (c :: cs)).map fun p => (Json.num p.1, p.2) := by
  have e : parseVal (f + 1) (c :: cs) =
      (if c = 'n' then (dropTok ['u', 'l', 'l'] cs).map fun rest => (Json.null, rest)
       else if c = 't' then (dropTok ['r', 'u', 'e'] cs).map fun rest => (Json.bool true, rest)
       else if c = 'f' then
         (dropTok ['a', 'l', 's', 'e'] cs).map fun rest => (Json.bool false, rest)
       else if c = '"' then (parseStrBody cs).map fun p => (Json.str ⟨p.1⟩, p.2)
       else if c = '[' then
         match cs with
         | ']' :: rest => some (Json.arr [], rest)
         | _ =>
           match parseElems f cs with
           | some (xs, rest) => some (Json.arr xs, rest)
           | none => none
       else if c = '\x7b' then
         match cs with
         | '\x7d' :: rest => some (Json.obj [], rest)
         | _ =>
           match parseMembers f cs with
           | some (fs, rest) => some (Json.obj fs, rest)
           | none => none
       else (parseJsonNum (c :: cs)).map fun p => (Json.num p.1, p.2)) := rfl
  rw [e, if_neg h1, if_neg h2, if_neg h3, if_neg h4, if_neg h5, if_neg h6]

theorem parseElems_succ (f : Nat) (cs : List Char) :
    parseElems (f + 1) cs =
      (match parseVal f cs with
       | none => none
       | some (j, r1) =>
         match r1 with
         | [] => none
         | c :: r2 =>
           if c = ',' then
             match parseElems f r2 with
             | some (js, r3) => some (j :: js, r3)
             | none => none
           else if c = ']' then some ([j], r2)
           else none) := rfl

theorem parseMembers_quote (f : Nat) (r0 : List Char) :
    parseMembers (f + 1) ('"' :: r0) =
      (match parseStrBody r0 with
       | none => none
       | some (k, r1) =>
         match r1 with
         | [] => none
         | c1 :: r2 =>
           if c1 = ':' then
             match parseVal f r2 with
             | none => none
             | some (v, r3) =>
               match r3 with
               | [] => none
               | c2 :: r4 =>
                 if c2 = ',' then
                   match parseMembers f r4 with
                   | some (ms, r5) => some ((⟨k⟩, v) :: ms, r5)
                   | none => none
                 else if c2 = '\x7d' then some ([(⟨k⟩, v)], r4)
                 else none
           else none) := rfl

set_option maxHeartbeats 1000000 in
theorem parse_print (n : Nat) :
    (∀ j, jsize j ≤ n → finiteB j = true → ∀ fuel, jsize j ≤ fuel → ∀ rest, numStop rest →
      parseVal fuel (printJson j ++ rest) = some (j, rest)) ∧
    (∀ xs, jsizeList xs ≤ n → xs ≠ [] → finiteElemsB xs = true → ∀ fuel, jsizeList xs ≤ fuel →
      ∀ rest, parseElems fuel (printElems xs ++ (']' :: rest)) = some (xs, rest)) ∧
    (∀ ms, jsizeMembers ms ≤ n → ms ≠ [] → finiteMembersB ms = true → ∀ fuel,
      jsizeMembers ms ≤ fuel →
      ∀ rest, parseMembers fuel (printMembers ms ++ ('\x7d' :: rest)) = some (ms, rest)) := by
  induction n with
  | zero =>
    refine ⟨?_, ?_, ?_⟩
    · intro j hj
      exact absurd hj (by have := jsize_pos j; omega)
    · intro xs hxs hne
      cases xs with
      | nil => exact absurd rfl hne
      | cons x xs => exact absurd hxs (by simp [jsizeList])
    · intro ms hms hne
      cases ms with
      | nil => exact absurd rfl hne
      | cons m ms =>
        obtain ⟨k, v⟩ := m
        exact absurd hms (by simp [jsizeMembers])
  | succ n ih =>
    obtain ⟨ih1, ih2, ih3⟩ := ih
    refine ⟨?_, ?_, ?_⟩
    · intro j hj hf fuel hfuel rest hrest
      cases fuel with
      | zero => exact absurd hfuel (by have := jsize_pos j; omega)
      | succ f =>
        cases j with
        | null =>
          rw [show printJson Json.null ++ rest = 'n' :: (['u', 'l', 'l'] ++ rest) from rfl,
            parseVal_null, dropTok_append]
          rfl
        | bool b =>
          cases b
          · rw [show printJson (Json.bool false) ++ rest =
              'f' :: (['a', 'l', 's', 'e'] ++ rest) from rfl, parseVal_false, dropTok_append]
            rfl
          · rw [show printJson (Json.bool true) ++ rest =
              't' :: (['r', 'u', 'e'] ++ rest) from rfl, parseVal_true, dropTok_append]
            rfl
        | num q =>
          have hfin : (decExp q.den).isSome = true := by simpa [finiteB] using hf
          obtain ⟨c, t, hct, hp⟩ := ratDecChars_head q
          have hn := numHead_props hp
          rw [show printJson (Json.num q) = ratDecChars q from rfl, hct, List.cons_append,
            parseVal_num f c (t ++ rest) hn.1 hn.2.1 hn.2.2.1 hn.2.2.2.1 hn.2.2.2.2.1
              hn.2.2.2.2.2.1,
            ← List.cons_append, ← hct, parseJsonNum_print q hfin rest hrest]
          rfl
        | str s =>
          rw [show printJson (Json.str s) ++ rest =
              '"' :: (escString s ++ ('"' :: rest)) from by
                rw [show printJson (Json.str s) = '"' :: (escString s ++ ['"']) from rfl]
                simp,
            parseVal_quote, parseStrBody_quote s rest]
          rfl
        | arr xs =>
          cases xs with
          | nil =>
            rw [show printJson (Json.arr []) ++ rest = '[' :: ']' :: rest from rfl]
            exact parseVal_arr_nil f rest
          | cons x xs =>
            have hsz : jsizeList (x :: xs) ≤ n := by
              simp [jsize, jsizeList] at hj ⊢
              omega
            have hszf : jsizeList (x :: xs) ≤ f := by
              simp [jsize, jsizeList] at hfuel ⊢
              omega
            have hfE : finiteElemsB (x :: xs) = true := by simpa [finiteB] using hf
            obtain ⟨c0, t0, hc0, hne0, _⟩ := printJson_head x
            have hCS : printElems (x :: xs) ++ (']' :: rest) =
                c0 :: (t0 ++ ((if xs.isEmpty then [] else ',' :: printElems xs) ++
                  (']' :: rest))) := by
              rw [printElems_cons, hc0]
              simp [List.append_assoc]
            rw [show printJson (Json.arr (x :: xs)) ++ rest =
                '[' :: (printElems (x :: xs) ++ (']' :: rest)) from by
                  rw [show printJson (Json.arr (x :: xs)) =
                    '[' :: printElems (x :: xs) ++ [']'] from rfl]
                  simp,
              hCS, parseVal_arr_go f c0 _ hne0, ← hCS,
              ih2 (x :: xs) hsz (by simp) hfE f hszf rest]
        | obj fs =>
          cases fs with
          | nil =>
            rw [show printJson (Json.obj []) ++ rest = '\x7b' :: '\x7d' :: rest from rfl]
            exact parseVal_obj_nil f rest
          | cons m fs =>
            obtain ⟨k, v⟩ := m
            have hsz : jsizeMembers ((k, v) :: fs) ≤ n := by
              simp [jsize, jsizeMembers] at hj ⊢
              omega
            have hszf : jsizeMembers ((k, v) :: fs) ≤ f := by
              simp [jsize, jsizeMembers] at hfuel ⊢
              omega
            have hfM : finiteMembersB ((k, v) :: fs) = true := by simpa [finiteB] using hf
            have hCS : ∃ T, printMembers ((k, v) :: fs) ++ ('\x7d' :: rest) = '"' :: T := by
              cases fs with
              | nil =>
                refine ⟨escString k ++ '"' :: ':' :: (printJson v ++ ('\x7d' :: rest)), ?_⟩
                simp [printMembers, quoteString]
              | cons m2 fs2 =>
                obtain ⟨k2, v2⟩ := m2
                refine ⟨escString k ++ '"' :: ':' :: (printJson v ++ (',' ::
                  (printMembers ((k2, v2) :: fs2) ++ ('\x7d' :: rest)))), ?_⟩
                simp [printMembers, quoteString]
            obtain ⟨T, hT⟩ := hCS
            rw [show printJson (Json.obj ((k, v) :: fs)) ++ rest =
                '\x7b' :: (printMembers ((k, v) :: fs) ++ ('\x7d' :: rest)) from by
                  rw [show printJson (Json.obj ((k, v) :: fs)) =
                    '\x7b' :: printMembers ((k, v) :: fs) ++ ['\x7d'] from rfl]
                  simp,
              hT, parseVal_obj_go f '"' T (by decide), ← hT,
              ih3 ((k, v) :: fs) hsz (by simp) hfM f hszf rest]
    · intro xs hsz hne hfE fuel hfuel rest
      cases xs with
      | nil => exact absurd rfl hne
      | cons x xs =>
        cases fuel with
        | zero => exact absurd hfuel (by simp [jsizeList])
        | succ f =>
          have hx : jsize x ≤ n := by
            simp [jsizeList] at hsz
            omega
          have hxf : jsize x ≤ f := by
            simp [jsizeList] at hfuel
            omega
          have hfx : finiteB x = true := by
            simp [finiteElemsB, Bool.and_eq_true] at hfE
            exact hfE.1
          cases xs with
          | nil =>
            rw [show printElems [x] ++ (']' :: rest) = printJson x ++ (']' :: rest) from rfl,
              parseElems_succ, ih1 x hx hfx f hxf (']' :: rest) (numStop_rbracket rest)]
            rfl
          | cons y ys =>
            have hys : jsizeList (y :: ys) ≤ n := by
              have := jsize_pos x
              simp [jsizeList] at hsz ⊢
              omega
            have hysf : jsizeList (y :: ys) ≤ f := by
              have := jsize_pos x
              simp [jsizeList] at hfuel ⊢
              omega
            have hfys : finiteElemsB (y :: ys) = true := by
              simp [finiteElemsB, Bool.and_eq_true] at hfE ⊢
              exact hfE.2
            rw [show printElems (x :: y :: ys) = printJson x ++ ',' :: printElems (y :: ys)
              from rfl]
            simp only [List.cons_append, List.append_assoc]
            rw [parseElems_succ,
              ih1 x hx hfx f hxf (',' :: (printElems (y :: ys) ++ (']' :: rest)))
                (numStop_comma _)]
            show (match parseElems f (printElems (y :: ys) ++ (']' :: rest)) with
              | some (js, r3) => some (x :: js, r3)
              | none => none) = some (x :: y :: ys, rest)
            rw [ih2 (y :: ys) hys (by simp) hfys f hysf rest]
    · intro ms hsz hne hfM fuel hfuel rest
      cases ms with
      | nil => exact absurd rfl hne
      | cons m ms =>
        obtain ⟨k, v⟩ := m
        cases fuel with
        | zero => exact absurd hfuel (by simp [jsizeMembers])
        | succ f =>
          have hv : jsize v ≤ n := by
            simp [jsizeMembers] at hsz
            omega
          have hvf : jsize v ≤ f := by
            simp [jsizeMembers] at hfuel
            omega
          have hfv : finiteB v = true := by
            simp [finiteMembersB, Bool.and_eq_true] at hfM
            exact hfM.1
          cases ms with
          | nil =>
            rw [show printMembers [(k, v)] = quoteString k ++ ':' :: printJson v from rfl,
              show quoteString k = '"' :: escString k ++ ['"'] from rfl]
            simp only [List.cons_append, List.append_assoc, List.singleton_append, List.nil_append]
            rw [parseMembers_quote,
              parseStrBody_quote k (':' :: (printJson v ++ ('\x7d' :: rest)))]
            show (match parseVal f (printJson v ++ ('\x7d' :: rest)) with
              | none => none
              | some (w, r3) =>
                match r3 with
                | [] => none
                | c2 :: r4 =>
                  if c2 = ',' then
                    match parseMembers f r4 with
                    | some (ms, r5) => some ((⟨k.data⟩, w) :: ms, r5)
                    | none => none
                  else if c2 = '\x7d' then some ([(⟨k.data⟩, w)], r4)
                  else none) = some ([(k, v)], rest)
            rw [ih1 v hv hfv f hvf ('\x7d' :: rest) (numStop_rbrace rest)]
            rfl
          | cons m2 ms2 =>
            obtain ⟨k2, v2⟩ := m2
            have hms2 : jsizeMembers ((k2, v2) :: ms2) ≤ n := by
              have := jsize_pos v
              simp [jsizeMembers] at hsz ⊢
              omega
            have hms2f : jsizeMembers ((k2, v2) :: ms2) ≤ f := by
              have := jsize_pos v
              simp [jsizeMembers] at hfuel ⊢
              omega
            have hfms2 : finiteMembersB ((k2, v2) :: ms2) = true := by
              simp [finiteMembersB, Bool.and_eq_true] at hfM ⊢
              exact hfM.2
            rw [show printMembers ((k, v) :: (k2, v2) :: ms2) =
              quoteString k ++ ':' :: printJson v ++ ',' :: printMembers ((k2, v2) :: ms2)
              from rfl,
              show quoteString k = '"' :: escString k ++ ['"'] from rfl]
            simp only [List.cons_append, List.append_assoc, List.singleton_append, List.nil_append]
            rw [parseMembers_quote,
              parseStrBody_quote k
                (':' :: (printJson v ++ (',' :: (printMembers ((k2, v2) :: ms2) ++
                  ('\x7d' :: rest)))))]
            show (match parseVal f (printJson v ++ (',' :: (printMembers ((k2, v2) :: ms2) ++
                ('\x7d' :: rest)))) with
              | none => none
              | some (w, r3) =>
                match r3 with
                | [] => none
                | c2 :: r4 =>
                  if c2 = ',' then
                    match parseMembers f r4 with
                    | some (ms, r5) => some ((⟨k.data⟩, w) :: ms, r5)
                    | none => none
                  else if c2 = '\x7d' then some ([(⟨k.data⟩, w)], r4)
                  else none) = some ((k, v) :: (k2, v2) :: ms2, rest)
            rw [ih1 v hv hfv f hvf
              (',' :: (printMembers ((k2, v2) :: ms2) ++ ('\x7d' :: rest))) (numStop_comma _)]
            show (match parseMembers f (printMembers ((k2, v2) :: ms2) ++ ('\x7d' :: rest)) with
              | some (ms, r5) => some ((⟨k.data⟩, v) :: ms, r5)
              | none => none) = some ((k, v) :: (k2, v2) :: ms2, rest)
            rw [ih3 ((k2, v2) :: ms2) hms2 (by simp) hfms2 f hms2f rest]

/-- Parsing inverts printing on every JSON value whose numbers have finite
decimal expansions. -/
theorem parseJson_print (j : Json) (hf : finiteB j = true) :
    parseJson (stringifyJson j) = some j := by
  have hle : jsize j ≤ (printJson j).length := (jsize_le_print (jsize j)).1 j le_rfl
  have h := (parse_print (jsize j)).1 j le_rfl hf ((printJson j).length + 1) (by omega)
    [] trivial
  rw [List.append_nil] at h
  show (match parseVal ((stringifyJson j).length + 1) (printJson j) with
       | some (j, []) => some j
       | _ => none) = some j
  rw [show (stringifyJson j).length = (printJson j).length from rfl, h]

/-- Exporting and re-importing restores the schema, provided the encoded
value prints with finite decimals (true of every JavaScript double). -/
theorem importSchema_exportSchema (s : FormSchema) (hc : schemaCheck s = true)
    (hf : finiteB (encodeSchema s) = true) :
    importSchema (exportSchema s) = some s := by
  show (match parseJson (exportSchema s) with
       | none => none
       | some j =>
         match decodeSchema j with
         | none => none
         | some s2 => if schemaCheck s2 then some s2 else none) = some s
  rw [exportSchema, parseJson_print (encodeSchema s) hf]
  show (match decodeSchema (encodeSchema s) with
       | none => none
       | some s2 => if schemaCheck s2 then some s2 else none) = some s
  rw [decodeSchema_encodeSchema]
  show (if schemaCheck s then some s else none) = some s
  rw [if_pos hc]

/-! ## Lookup lemmas for the value-map operations -/

theorem lookup_append2 {α : Type} (l1 l2 : List (String × α)) (k : String) :
    ((l1 ++ l2).lookup k) = (l1.lookup k).or (l2.lookup k) := by
  induction l1 with
  | nil => simp [List.lookup]
  | cons p l1 ih =>
    obtain ⟨a, b⟩ := p
    by_cases h : k = a
    · subst h
      simp [List.lookup]
    · simp [List.lookup, beq_eq_false_iff_ne.mpr h, ih]

theorem lookup_filter_keep {α : Type} (m : List (String × α)) (q : String × α → Bool)
    (k : String) (hq : ∀ v, q (k, v) = true) :
    ((m.filter q).lookup k) = m.lookup k := by
  induction m with
  | nil => simp
  | cons p m ih =>
    obtain ⟨a, b⟩ := p
    by_cases h : k = a
    · subst h
      simp [List.filter, hq b, List.lookup]
    · cases hqp : q (a, b) <;>
        simp [List.filter, hqp, List.lookup, beq_eq_false_iff_ne.mpr h, ih]

theorem lookup_map_spread (a b : ValueMap) (k : String) :
    ((a.map fun p => (p.1,
        match b.lookup p.1 with
        | some v => v
        | none => p.2)).lookup k) =
      (a.lookup k).map fun v =>
        match b.lookup k with
        | some w => w
        | none => v := by
  induction a with
  | nil => simp [List.lookup]
  | cons p a ih =>
    obtain ⟨a0, v0⟩ := p
    by_cases h : k = a0
    · subst h
      simp [List.lookup]
    · simp [List.lookup, beq_eq_false_iff_ne.mpr h, ih]

/-- Reading the result of a spread `{...a, ...b}`: `b` wins on a clash,
`a` fills in the rest. -/
theorem objSpread_lookup (a b : ValueMap) (k : String) :
    ((objSpread a b).lookup k) = (b.lookup k).or (a.lookup k) := by
  unfold objSpread
  rw [lookup_append2, lookup_map_spread]
  cases ha : a.lookup k with
  | some v => cases hb : b.lookup k <;> simp [hb]
  | none =>
    rw [lookup_filter_keep b _ k fun v => by simp [ha]]
    simp

theorem lookup_map_setval {α : Type} (m : List (String × α)) (k k' : String) (v : α) :
    ((m.map fun p => if p.1 = k then (k, v) else p).lookup k') =
      if k' = k then (m.lookup k).map fun _ => v else m.lookup k' := by
  induction m with
  | nil => simp [List.lookup]
  | cons p m ih =>
    obtain ⟨a, b⟩ := p
    rw [List.map_cons]
    by_cases hak : a = k
    · subst hak
      rw [if_pos rfl]
      by_cases h : k' = a
      · subst h
        simp [List.lookup]
      · simp only [List.lookup, beq_eq_false_iff_ne.mpr h, ih, if_neg h]
    · rw [if_neg hak]
      by_cases h : k' = a
      · subst h
        simp [List.lookup, hak, beq_eq_false_iff_ne.mpr hak]
      · simp only [List.lookup, beq_eq_false_iff_ne.mpr h, ih,
          beq_eq_false_iff_ne.mpr fun e : k = a => hak e.symm]

/-- Reading the result of a JavaScript property write. -/
theorem assocSet_lookup {α : Type} (m : List (String × α)) (k k' : String) (v : α) :
    ((assocSet m k v).lookup k') = if k' = k then some v else m.lookup k' := by
  unfold assocSet
  cases hs : m.lookup k with
  | none =>
    rw [if_neg (by simp [hs])]
    rw [lookup_append2]
    by_cases h : k' = k
    · subst h
      simp [hs, List.lookup]
    · simp [List.lookup, beq_eq_false_iff_ne.mpr h, h]
  | some w =>
    rw [if_pos (by simp [hs])]
    rw [lookup_map_setval]
    by_cases h : k' = k
    · subst h
      simp [hs]
    · simp [h]

/-- One step of the default-value fold of `getDefaultValues`. -/
def seedStep (values : ValueMap) (f : FormField) : ValueMap :=
  match f.defaultValue with
  | some v => assocSet values f.name v.toJS
  | none => values

theorem getDefaultValues_eq (fields : List FormField) :
    getDefaultValues fields = fields.foldl seedStep [] := rfl

theorem seedStep_lookup_ne (acc : ValueMap) (g : FormField) (k : String)
    (h : g.name ≠ k) : ((seedStep acc g).lookup k) = acc.lookup k := by
  cases hd : g.defaultValue with
  | some v =>
    simp only [seedStep, hd]
    rw [assocSet_lookup, if_neg fun e : k = g.name => h e.symm]
  | none => simp [seedStep, hd]

theorem seed_foldl_frame (fields : List FormField) (k : String)
    (h : ∀ g ∈ fields, g.name ≠ k) :
    ∀ acc : ValueMap, ((fields.foldl seedStep acc).lookup k) = acc.lookup k := by
  induction fields with
  | nil => intro acc; rfl
  | cons g rest ih =>
    intro acc
    rw [List.foldl_cons, ih fun x hx => h x (List.mem_cons_of_mem g hx)]
    exact seedStep_lookup_ne acc g k (h g (List.mem_cons_self g rest))

theorem seed_foldl_lookup (fields : List FormField) (f : FormField) (hf : f ∈ fields)
    (hnd : (fields.map FormField.name).Nodup) :
    ∀ acc : ValueMap,
      ((fields.foldl seedStep acc).lookup f.name) =
        match f.defaultValue with
        | some v => some v.toJS
        | none => acc.lookup f.name := by
  induction fields with
  | nil => cases hf
  | cons g rest ih =>
    intro acc
    rw [List.foldl_cons]
    rcases List.mem_cons.mp hf with rfl | hfr
    · have hout : ∀ h ∈ rest, h.name ≠ f.name := by
        intro h hh he
        exact (List.nodup_cons.mp hnd).1 (he ▸ List.mem_map_of_mem FormField.name hh)
      rw [seed_foldl_frame rest f.name hout _]
      cases hd : f.defaultValue with
      | some v => simp [seedStep, hd, assocSet_lookup]
      | none => simp [seedStep, hd]
    · have hnd2 : (rest.map FormField.name).Nodup := (List.nodup_cons.mp hnd).2
      have hgne : g.name ≠ f.name := fun he =>
        (List.nodup_cons.mp hnd).1 (he ▸ List.mem_map_of_mem FormField.name hfr)
      rw [ih hfr hnd2 _]
      cases hd : f.defaultValue with
      | some v => rfl
      | none => exact seedStep_lookup_ne acc g f.name hgne

/-! ## The claims

One theorem per claim of the specification review, with concrete
counterexamples and witnesses where called for. -/

/-- The spec wording of the `contains` test: the target value string-coerces
as stored, and defaults to the empty string only when it is unset. -/
def containsSpec (formData : ValueMap) (c : ConditionalRule) : Bool :=
  jsContains
    (jsToString (match formData.lookup c.field with
      | some v => v
      | none => .str ""))
    (jsToString c.value.toJS)

/-- A schema holding only the malformed-regex field. -/
def c6Schema : FormSchema :=
  { title := "t", fields := [badPatternField] }

/-- A pristine render state. -/
def c6State : RenderState :=
  { formData := [], errors := [], isSubmitting := false, submitResult := none }

/-- A field whose conditional compares a missing target numerically. -/
def c7Field : FormField :=
  { id := "7", name := "w", label := "W", type := .text,
    conditional := some { field := "missing", operator := .greaterThan, value := .num 5 } }

/-- A field whose conditional asks whether the target contains the digit 0. -/
def c9Field : FormField :=
  { id := "9", name := "v", label := "V", type := .text,
    conditional := some { field := "t", operator := .contains, value := .str "0" } }

/-- A field carrying a default value. -/
def c10FieldA : FormField :=
  { id := "a", name := "a", label := "A", type := .text,
    defaultValue := some (.str "x") }

/-- A field without a default value. -/
def c10FieldB : FormField :=
  { id := "b", name := "b", label := "B", type := .text }

/-- A field shown only when the defaultless field equals the empty string. -/
def c10CondField : FormField :=
  { id := "c", name := "c", label := "C", type := .text,
    conditional := some { field := "b", operator := .equals, value := .str "" } }

def c10Fields : List FormField :=
  [c10FieldA, c10FieldB, c10CondField]

/-- A schema exercising text, select and checkbox fields with rules, options,
a conditional, defaults and a description. -/
def demoSchema : FormSchema :=
  { title := "Demo",
    description := some "A form",
    fields := [
      { id := "1", name := "name", label := "Name", type := .text, required := some true,
        placeholder := some "p",
        validation := some [{ type := .min, value := some (.num 3), message := some "Too short" }],
        defaultValue := some (.str "ab") },
      { id := "2", name := "color", label := "Color", type := .select,
        options := some [{ label := "Red", value := "r" }, { label := "Blue", value := "b" }],
        conditional := some { field := "name", operator := .equals, value := .str "x" } },
      { id := "3", name := "ok", label := "OK", type := .checkbox,
        defaultValue := some (.bool true) } ] }

/-- C1: the claim fails in the code.  For the required number field `age`
with a min-18 rule, checking the empty string does not produce the required
message "age is required": `z.coerce.number` coerces `""` through
`Number("")` to `0`, the parse succeeds, the min rule fires, and the
required refinement sees the coerced `0` (which is neither `""`, `null`
nor `undefined`) and passes — so the min message is reported. -/
theorem c1_empty_number_reports_min :
    jsToNumber (.str "") = .val 0 ∧
    checkField ageField (.str "") = .ok (.invalid "Must be 18+") ∧
    ¬checkField ageField (.str "") = .ok (.invalid "age is required") := by decide

/-- C2 counterexample: the claimed rule table is wrong on both sides.  A
date field declaring a min rule ignores it (its rule loop is unreachable),
and a select field declaring a min rule applies it as a string-length
bound. -/
theorem c2_counterexample :
    checkField dateMinField (.str "2024-01-01") = .ok .valid ∧
    checkField selectMinField (.str "a") = .ok (.invalid "Minimum length is 2") := by decide

/-- C2 (amended): the legal pairs per the code.  `number` applies numeric
min/max; `select` and `radio` validate exactly like `text` (string rules
applied); `date` and `checkbox` ignore every declared rule (their built
schema does not depend on `validation`); `text` and `textarea` apply
regex/min/max string rules. -/
theorem c2_rule_application (field : FormField) :
    (field.type = .number →
      buildZodSchema field = .ok (requiredWrap field (.coerceNumber
        s!"{field.label} must be a number" (numChecksOf (field.validation.getD []))))) ∧
    ((field.type = .select ∨ field.type = .radio) →
      buildZodSchema field = buildZodSchema { field with type := FieldType.text }) ∧
    ((field.type = .date ∨ field.type = .checkbox) →
      ∀ rules, buildZodSchema { field with validation := rules } = buildZodSchema field) ∧
    ((field.type = .text ∨ field.type = .textarea) →
      buildZodSchema field = (strChecksOf (field.validation.getD [])).map fun cs =>
        requiredWrap field (.string cs)) := by
  refine ⟨?_, ?_, ?_, ?_⟩
  · intro h
    simp [buildZodSchema, h]
  · intro h
    rcases h with h | h <;> simp [buildZodSchema, h, requiredWrap]
  · intro h rules
    rcases h with h | h <;> simp [buildZodSchema, h, requiredWrap]
  · intro h
    rcases h with h | h <;> simp [buildZodSchema, h]

/-- C2 witness: the select field of the counterexample builds the same
validator as its text twin. -/
theorem c2_witness :
    buildZodSchema selectMinField = buildZodSchema { selectMinField with type := FieldType.text } :=
  (c2_rule_application selectMinField).2.1 (Or.inl rfl)

/-- C3 counterexample: a non-required textarea with a min-3 rule does not
short-circuit on an empty or null value.  The empty string runs the rules
(min fails), and null aborts with a type error; only undefined passes. -/
theorem c3_counterexample :
    checkField bioField (.str "") = .ok (.invalid "Minimum length is 3") ∧
    checkField bioField .null = .ok (.invalid "Expected string, received null") := by decide

/-- C3 (amended): for a non-required field only `undefined` short-circuits
to Valid: `.optional()` accepts exactly undefined, and then no declared
rule runs. -/
theorem c3_optional_undefined_passes (field : FormField)
    (h : field.required.getD false = false) (zs : ZodSchema)
    (hz : buildZodSchema field = .ok zs) :
    runZod zs .undefined = [] ∧ checkField field .undefined = .ok .valid := by
  have hw : ∀ b, requiredWrap field b = .optional b := fun b => by
    simp [requiredWrap, h]
  have hb : ∃ b, zs = ZodSchema.optional b := by
    unfold buildZodSchema at hz
    split at hz
    · rw [hw] at hz
      injection hz with h2
      exact ⟨_, h2.symm⟩
    · rw [hw] at hz
      injection hz with h2
      exact ⟨_, h2.symm⟩
    · rw [hw] at hz
      injection hz with h2
      exact ⟨_, h2.symm⟩
    · cases hsc : strChecksOf (field.validation.getD []) with
      | ok cs =>
        rw [hsc] at hz
        simp only [Except.map] at hz
        rw [hw] at hz
        injection hz with h2
        exact ⟨_, h2.symm⟩
      | error e =>
        rw [hsc] at hz
        simp [Except.map] at hz
  obtain ⟨b, rfl⟩ := hb
  refine ⟨by simp [runZod], ?_⟩
  simp [checkField, hz, Except.map, runZod, lastIssue]

/-- C3 witness: the non-required bio field accepts undefined. -/
theorem c3_witness :
    runZod (ZodSchema.optional (ZodBase.string [StrCheck.minLen 3 "Minimum length is 3"]))
        .undefined = [] ∧
    checkField bioField .undefined = .ok .valid :=
  c3_optional_undefined_passes bioField (by decide) _ (by decide)

/-- C4 counterexample: with a submission already in flight
(`isSubmitting = true`), a second submit still validates and invokes the
external collaborator (the returned flag is `true`): the handler reads no
guard on the state. -/
theorem c4_counterexample :
    handleSubmitSync { title := "t", fields := [] }
      { formData := [], errors := [], isSubmitting := true, submitResult := none } =
      .ok ({ formData := [], errors := [], isSubmitting := true, submitResult := none },
        true) := by decide

/-- C4 (amended): the submit pass is entirely independent of the
`isSubmitting` state — a second submit during flight behaves exactly like
the first, and the only protection is the button's `disabled` attribute. -/
theorem c4_no_structural_guard (schema : FormSchema) (st : RenderState) (b1 b2 : Bool) :
    handleSubmitSync schema { st with isSubmitting := b1 } =
      handleSubmitSync schema { st with isSubmitting := b2 } ∧
    submitButtonDisabled { st with isSubmitting := true } = true := by
  constructor
  · cases h : buildShape schema st.formData with
    | error e => simp [handleSubmitSync, h]
    | ok shape => simp [handleSubmitSync, h]
  · rfl

/-- C5 counterexample: a schema change clobbers a user-edited value.  The
user set field `a` to "edited"; re-applying a schema where `a` declares
default "initial" (and a new field `b` declares default "b0") overwrites
the edit. -/
theorem c5_counterexample :
    applySchemaChange [("a", .str "edited")]
      [{ id := "1", name := "a", label := "A", type := .text,
         defaultValue := some (.str "initial") },
       { id := "2", name := "b", label := "B", type := .text,
         defaultValue := some (.str "b0") }] =
      [("a", .str "initial"), ("b", .str "b0")] := by decide

/-- C5 (amended): after a schema change every key with a seeded default
takes the default (existing entries included — user edits of fields that
declare a `defaultValue` are overwritten), and only keys without a default
keep their previous values; the map is never reset wholesale. -/
theorem c5_spread_lookup (prevData : ValueMap) (fields : List FormField) (k : String) :
    ((applySchemaChange prevData fields).lookup k) =
      ((getDefaultValues fields).lookup k).or (prevData.lookup k) :=
  objSpread_lookup prevData (getDefaultValues fields) k

/-- C6 counterexample: a malformed regex pattern makes compilation fail,
and one bad rule aborts the whole submit pass (the sibling field is never
validated; the handler throws instead of recording "Invalid format"). -/
theorem c6_counterexample :
    buildZodSchema badPatternField = .error (.badPattern "(") ∧
    handleSubmitSync { title := "t", fields := [fullNameField, badPatternField] }
      { formData := [("fullName", .str "Jo")], errors := [], isSubmitting := false,
        submitResult := none } = .error (.badPattern "(") := by decide

/-- C6 (amended): build errors are exactly malformed regex patterns, and
they propagate: a field whose schema fails to build fails `checkField` for
every value, and a shape that fails to build makes the submit handler
throw the same error instead of producing per-field data. -/
theorem c6_bad_pattern_propagates (field : FormField) (e : BuildError)
    (hf : buildZodSchema field = .error e) (schema : FormSchema) (st : RenderState)
    (hs : buildShape schema st.formData = .error e) :
    (∃ p, e = .badPattern p) ∧ (∀ v, checkField field v = .error e) ∧
    handleSubmitSync schema st = .error e := by
  refine ⟨?_, ?_, ?_⟩
  · cases e with
    | badPattern p => exact ⟨p, rfl⟩
  · intro v
    simp [checkField, hf, Except.map]
  · simp [handleSubmitSync, hs, Bind.bind, Except.bind]

/-- C6 witness: the malformed pattern "(" fails one concrete check and one
concrete submit. -/
theorem c6_witness :
    checkField badPatternField (.str "x") = .error (.badPattern "(") ∧
    handleSubmitSync c6Schema c6State = .error (.badPattern "(") :=
  ⟨(c6_bad_pattern_propagates badPatternField (.badPattern "(") (by decide)
      c6Schema c6State (by decide)).2.1 (.str "x"),
   (c6_bad_pattern_propagates badPatternField (.badPattern "(") (by decide)
      c6Schema c6State (by decide)).2.2⟩

/-- C7: the visibility evaluator is total — it returns one of the two
booleans on every input — and a greaterThan/lessThan conditional whose
target coerces to NaN evaluates to false. -/
theorem c7_visibility_total (formData : ValueMap) (field : FormField) :
    (isFieldVisible formData field = true ∨ isFieldVisible formData field = false) ∧
    (∀ c, field.conditional = some c →
      c.operator = .greaterThan ∨ c.operator = .lessThan →
      jsToNumber (objGet formData c.field) = .nan →
      isFieldVisible formData field = false) := by
  refine ⟨?_, ?_⟩
  · cases h : isFieldVisible formData field
    · exact Or.inr rfl
    · exact Or.inl rfl
  · intro c hc hop hnan
    simp only [isFieldVisible, hc]
    rcases hop with h | h <;> simp [h, hnan, jsNumGt, jsNumLt]

/-- C7 witness: a numeric conditional over a missing target field is
simply false. -/
theorem c7_witness : isFieldVisible [] c7Field = false :=
  (c7_visibility_total [] c7Field).2
    { field := "missing", operator := .greaterThan, value := .num 5 }
    rfl (Or.inl rfl) (by decide)

/-- C8: export then import restores the schema exactly (field, option and
rule order preserved), for every schema accepted by the spec-modelled
Schema Model check whose encoding prints with finite decimals (true of
every JavaScript double). -/
theorem c8_import_export_roundtrip (s : FormSchema) (hc : schemaCheck s = true)
    (hf : finiteB (encodeSchema s) = true) :
    importSchema (exportSchema s) = some s :=
  importSchema_exportSchema s hc hf

/-- C8 witness: a three-field schema with rules, options, a conditional
and defaults survives the round trip. -/
theorem c8_witness : importSchema (exportSchema demoSchema) = some demoSchema :=
  c8_import_export_roundtrip demoSchema (by decide) (by decide)

/-- C9 counterexample: a contains conditional whose target is the set
number `0` evaluates to false in the code (the `targetValue || ""`
falsy-collapse erases it), while the spec wording — default to "" only
when unset — compares "0" against "0" and yields true. -/
theorem c9_counterexample :
    isFieldVisible [("t", .num 0)] c9Field = false ∧
    containsSpec [("t", .num 0)]
      { field := "t", operator := .contains, value := .str "0" } = true := by decide

/-- C9 (amended): the contains test matches the spec wording only for
truthy targets; every falsy target — unset, but also the set values `0`,
`false` and `""` — collapses to the empty string before coercion. -/
theorem c9_contains_falsy_collapse (formData : ValueMap) (field : FormField)
    (c : ConditionalRule) (hc : field.conditional = some c)
    (hop : c.operator = .contains) :
    (jsFalsy (objGet formData c.field) = false →
      isFieldVisible formData field = containsSpec formData c) ∧
    (jsFalsy (objGet formData c.field) = true →
      isFieldVisible formData field = jsContains "" (jsToString c.value.toJS)) := by
  constructor
  · intro h
    simp only [isFieldVisible, hc, hop]
    cases hlk : formData.lookup c.field with
    | none => simp [objGet, hlk, jsFalsy] at h
    | some v =>
      have hv : jsFalsy v = false := by simpa [objGet, hlk] using h
      simp [containsSpec, objGet, hlk, hv]
  · intro h
    simp only [isFieldVisible, hc, hop]
    simp [h, jsToString]

/-- C9 witness: for a truthy target the code agrees with the spec
wording. -/
theorem c9_witness :
    isFieldVisible [("t", JSValue.str "a0b")] c9Field =
      containsSpec [("t", JSValue.str "a0b")]
        { field := "t", operator := .contains, value := .str "0" } :=
  (c9_contains_falsy_collapse [("t", .str "a0b")] c9Field
    { field := "t", operator := .contains, value := .str "0" } rfl rfl).1 (by decide)

/-- C10: on a fresh mount the value map holds an entry for a field exactly
when its `defaultValue` is defined (under distinct field names); a field
without a default reads as `undefined` — not the empty string — so its
rendered input shows "" while an equals-"" conditional targeting it is
false until the user edits it. -/
theorem c10_default_seeding (fields : List FormField) (f : FormField) (hf : f ∈ fields)
    (hnd : (fields.map FormField.name).Nodup) :
    ((getDefaultValues fields).lookup f.name) = f.defaultValue.map JSPrim.toJS ∧
    (f.defaultValue = none →
      objGet (getDefaultValues fields) f.name = .undefined ∧
      renderedValue (getDefaultValues fields) f = .str "" ∧
      ∀ g c, g.conditional = some c → c.operator = .equals → c.field = f.name →
        c.value = JSPrim.str "" →
        isFieldVisible (getDefaultValues fields) g = false) := by
  have h1 : ((getDefaultValues fields).lookup f.name) = f.defaultValue.map JSPrim.toJS := by
    rw [getDefaultValues_eq, seed_foldl_lookup fields f hf hnd []]
    cases f.defaultValue <;> simp [List.lookup]
  refine ⟨h1, ?_⟩
  intro hd
  rw [hd] at h1
  have h2 : objGet (getDefaultValues fields) f.name = .undefined := by
    simp [objGet, h1]
  refine ⟨h2, ?_, ?_⟩
  · simp [renderedValue, h2]
  · intro g c hc hop hfield hval
    simp only [isFieldVisible, hc, hop, hfield, hval]
    simp [h2, JSPrim.toJS]

/-- C10 witness: with a default-carrying field `a` and a defaultless field
`b`, the fresh map has no entry for `b` and the equals-"" conditional on
`b` is false. -/
theorem c10_witness :
    ((getDefaultValues c10Fields).lookup "b") = none ∧
    isFieldVisible (getDefaultValues c10Fields) c10CondField = false := by
  have h := c10_default_seeding c10Fields c10FieldB (by decide) (by decide)
  refine ⟨?_, ?_⟩
  · exact h.1
  · exact (h.2 rfl).2.2 c10CondField
      { field := "b", operator := .equals, value := .str "" } rfl rfl rfl rfl

end FormBuilder
